import Mathlib

/-
Verification of the todo.bin record core (src/main.rs): the document codec
(TodoData::to_bytes / TodoData::from_str), the collection loader
(load_collection), identifier allocation (CommandProcessor::next_data_id),
path derivation (TodoFile::gen_filepath) and the template pipeline step
(CommandProcessor::create_todo_data_from_template).

Rust strings are modelled as `List Char`; `u32` values as `Nat` with explicit
`% 2^32` where wraparound matters.  A Rust panic (an `unwrap` of `None`) is a
distinct outcome `crash` of the embedded functions.  The behaviour of the
library codecs the source invokes (`toml` serialization of the `FrontMatter`
struct with serde-derived instances, and `chrono`'s RFC 3339 timestamp codec)
is embedded directly, restricted to the shapes this struct exercises.
-/

namespace Todo

/-- Rust `String` / `&str` contents, as a list of unicode scalar values. -/
abbrev Str := List Char

/-! ### Decimal digits -/

/-- Character for a single decimal digit value. -/
def digitChar (n : Nat) : Char :=
  Char.ofNat (48 + n)

/-- Numeric value of a decimal digit character. -/
def digitVal (c : Char) : Nat := c.toNat - 48

/-- Value of a most-significant-first decimal digit string. -/
def digitsVal (s : Str) : Nat := s.foldl (fun a c => a * 10 + digitVal c) 0

theorem digitsVal_from (s : Str) (a : Nat) :
    s.foldl (fun a c => a * 10 + digitVal c) a = a * 10 ^ s.length + digitsVal s := by
  induction s generalizing a with
  | nil => simp [digitsVal]
  | cons c t ih =>
    simp only [List.foldl_cons, digitsVal, List.length_cons]
    rw [ih (a * 10 + digitVal c), ih (0 * 10 + digitVal c)]
    ring

theorem digitsVal_append (s t : Str) :
    digitsVal (s ++ t) = digitsVal s * 10 ^ t.length + digitsVal t := by
  simp only [digitsVal, List.foldl_append]
  rw [digitsVal_from]
  rfl

theorem digitVal_digitChar (n : Nat) (h : n < 10) : digitVal (digitChar n) = n := by
  interval_cases n <;> decide

theorem isDigit_digitChar (n : Nat) (h : n < 10) : (digitChar n).isDigit = true := by
  interval_cases n <;> decide

/-- Decimal rendering of a natural number, with explicit fuel so that the
definition is structurally recursive (the Rust side is `format!` on `u32`). -/
def natToCharsAux : Nat → Nat → Str
  | 0, _ => []
  | fuel + 1, n =>
    if n < 10 then [digitChar n]
    else natToCharsAux fuel (n / 10) ++ [digitChar (n % 10)]

/-- Decimal rendering of a natural number (most significant digit first). -/
def natToChars (n : Nat) : Str := natToCharsAux (n + 1) n

theorem natToCharsAux_spec (fuel : Nat) :
    ∀ n, n < fuel →
      digitsVal (natToCharsAux fuel n) = n ∧
      natToCharsAux fuel n ≠ [] ∧
      (∀ c ∈ natToCharsAux fuel n, c.isDigit = true) := by
  induction fuel with
  | zero => intro n h; omega
  | succ fuel ih =>
    intro n h
    by_cases h10 : n < 10
    · refine ⟨?_, by simp [natToCharsAux, h10], ?_⟩
      · simp [natToCharsAux, h10, digitsVal, digitVal_digitChar n h10]
      · simp only [natToCharsAux, if_pos h10, List.mem_singleton]
        rintro c rfl
        exact isDigit_digitChar n h10
    · have hdiv : n / 10 < fuel := by
        have h1 : n / 10 < n := Nat.div_lt_self (by omega) (by omega)
        omega
      obtain ⟨hv, _, hd⟩ := ih (n / 10) hdiv
      refine ⟨?_, by simp [natToCharsAux, h10], ?_⟩
      · rw [natToCharsAux, if_neg h10, digitsVal_append, hv]
        simp [digitsVal, digitVal_digitChar (n % 10) (Nat.mod_lt n (by omega))]
        omega
      · simp only [natToCharsAux, if_neg h10, List.mem_append, List.mem_singleton]
        rintro c (hc | rfl)
        · exact hd c hc
        · exact isDigit_digitChar (n % 10) (Nat.mod_lt n (by omega))

theorem digitsVal_natToChars (n : Nat) : digitsVal (natToChars n) = n :=
  (natToCharsAux_spec (n + 1) n (Nat.lt_succ_self n)).1

theorem natToChars_ne_nil (n : Nat) : natToChars n ≠ [] :=
  (natToCharsAux_spec (n + 1) n (Nat.lt_succ_self n)).2.1

theorem natToChars_digits (n : Nat) : ∀ c ∈ natToChars n, c.isDigit = true :=
  (natToCharsAux_spec (n + 1) n (Nat.lt_succ_self n)).2.2

theorem natToCharsAux_length_le (fuel : Nat) :
    ∀ n k, n < fuel → n < 10 ^ k → 1 ≤ k → (natToCharsAux fuel n).length ≤ k := by
  induction fuel with
  | zero => intro n k h; omega
  | succ fuel ih =>
    intro n k h hk h1
    by_cases h10 : n < 10
    · simp [natToCharsAux, h10]; omega
    · have hdiv : n / 10 < fuel := by
        have h1 : n / 10 < n := Nat.div_lt_self (by omega) (by omega)
        omega
      have hk2 : 2 ≤ k := by
        by_contra hne
        have : k = 1 := by omega
        subst this
        simp at hk
        omega
      have hdivk : n / 10 < 10 ^ (k - 1) := by
        have : n < 10 * 10 ^ (k - 1) := by
          have : 10 ^ k = 10 * 10 ^ (k - 1) := by
            conv_lhs => rw [show k = 1 + (k - 1) by omega]
            rw [pow_add, pow_one]
          omega
        omega
      have := ih (n / 10) (k - 1) hdiv hdivk (by omega)
      simp only [natToCharsAux, if_neg h10, List.length_append, List.length_singleton]
      omega

theorem natToChars_length_le (n k : Nat) (hk : n < 10 ^ k) (h1 : 1 ≤ k) :
    (natToChars n).length ≤ k :=
  natToCharsAux_length_le (n + 1) n k (Nat.lt_succ_self n) hk h1

/-- Zero padding on the left to a fixed width, as `format!` with `{:0w}`. -/
def padZeros (w : Nat) (s : Str) : Str := List.replicate (w - s.length) '0' ++ s

theorem digitsVal_replicate_zero (k : Nat) (s : Str) :
    digitsVal (List.replicate k '0' ++ s) = digitsVal s := by
  induction k with
  | zero => simp
  | succ k ih =>
    rw [List.replicate_succ, List.cons_append]
    simpa [digitsVal, digitVal] using ih

theorem digitsVal_padZeros (w : Nat) (s : Str) : digitsVal (padZeros w s) = digitsVal s :=
  digitsVal_replicate_zero _ s

theorem padZeros_length (w : Nat) (s : Str) (h : s.length ≤ w) :
    (padZeros w s).length = w := by
  simp [padZeros]
  omega

theorem padZeros_digits (w : Nat) (s : Str) (h : ∀ c ∈ s, c.isDigit = true) :
    ∀ c ∈ padZeros w s, c.isDigit = true := by
  intro c hc
  rcases List.mem_append.1 hc with h0 | hs
  · rcases List.eq_of_mem_replicate h0 with rfl
    decide
  · exact h c hs

/-! ### Timestamps

Model of `chrono::DateTime<chrono::Utc>`: a civil date-time in UTC with
nanosecond precision, represented by its components.  The serde instances the
source relies on serialize such a value as an RFC 3339 string
(`YYYY-MM-DDTHH:MM:SS[.fff[fff[fff]]]Z`) and parse it back. -/

structure DateTime where
  year : Nat
  month : Nat
  day : Nat
  hour : Nat
  minute : Nat
  second : Nat
  nanos : Nat
deriving DecidableEq

/-- Whether a year is a leap year in the proleptic Gregorian calendar. -/
def isLeapYear (y : Nat) : Bool :=
  (y % 4 = 0 && y % 100 ≠ 0) || y % 400 = 0

/-- Number of days in a month. -/
def daysInMonth (y m : Nat) : Nat :=
  if m = 2 then (if isLeapYear y then 29 else 28)
  else if m = 4 ∨ m = 6 ∨ m = 9 ∨ m = 11 then 30
  else 31

/-- Component ranges of a representable UTC date-time (the RFC 3339 year range,
as chrono's serializer emits four year digits in it). -/
def DateTime.Valid (t : DateTime) : Prop :=
  t.year ≤ 9999 ∧ 1 ≤ t.month ∧ t.month ≤ 12 ∧ 1 ≤ t.day ∧
    t.day ≤ daysInMonth t.year t.month ∧ t.hour ≤ 23 ∧ t.minute ≤ 59 ∧
    t.second ≤ 59 ∧ t.nanos < 1000000000

instance (t : DateTime) : Decidable t.Valid := by
  unfold DateTime.Valid
  infer_instance

/-- Fractional-second digits for a nonzero nanosecond count: chrono prints
3, 6 or 9 digits depending on the trailing zeros (`SecondsFormat::AutoSi`). -/
def fracDigits (n : Nat) : Str :=
  if n % 1000000 = 0 then padZeros 3 (natToChars (n / 1000000))
  else if n % 1000 = 0 then padZeros 6 (natToChars (n / 1000))
  else padZeros 9 (natToChars n)

/-- RFC 3339 rendering of a UTC date-time, as chrono serializes it. -/
def formatDT (t : DateTime) : Str :=
  padZeros 4 (natToChars t.year) ++ '-' ::
  (padZeros 2 (natToChars t.month) ++ '-' ::
  (padZeros 2 (natToChars t.day) ++ 'T' ::
  (padZeros 2 (natToChars t.hour) ++ ':' ::
  (padZeros 2 (natToChars t.minute) ++ ':' ::
  (padZeros 2 (natToChars t.second) ++
    ((if t.nanos = 0 then [] else '.' :: fracDigits t.nanos) ++ ['Z']))))))

/-- Read exactly `w` decimal digits from the front of `s`. -/
def readDigits (w : Nat) (s : Str) : Option (Nat × Str) :=
  let ds := s.take w
  if ds.length = w ∧ ∀ c ∈ ds, c.isDigit = true then
    some (digitsVal ds, s.drop w)
  else none

/-- Expect a single given character at the front of `s`. -/
def expectChar (c : Char) : Str → Option Str
  | [] => none
  | x :: r => if x = c then some r else none

/-- Optional fractional seconds: a dot followed by one to nine digits,
scaled to nanoseconds (as chrono's RFC 3339 parser accepts). -/
def parseFrac (s : Str) : Option (Nat × Str) :=
  match s with
  | '.' :: r =>
    let ds := r.takeWhile (fun c => c.isDigit)
    if 1 ≤ ds.length ∧ ds.length ≤ 9 then
      some (digitsVal ds * 10 ^ (9 - ds.length), r.dropWhile (fun c => c.isDigit))
    else none
  | _ => some (0, s)

/-- UTC offset designator: `Z` or `+00:00` (the model restricts chrono's
offset handling to the UTC offsets the serializer can emit). -/
def parseTz : Str → Option Str
  | 'Z' :: r => some r
  | '+' :: '0' :: '0' :: ':' :: '0' :: '0' :: r => some r
  | _ => none

/-- RFC 3339 parsing of a UTC date-time, consuming the whole string, with the
range checks chrono performs. -/
def parseDT (s : Str) : Option DateTime := do
  let (y, s) ← readDigits 4 s
  let s ← expectChar '-' s
  let (mo, s) ← readDigits 2 s
  let s ← expectChar '-' s
  let (d, s) ← readDigits 2 s
  let s ← expectChar 'T' s
  let (h, s) ← readDigits 2 s
  let s ← expectChar ':' s
  let (mi, s) ← readDigits 2 s
  let s ← expectChar ':' s
  let (sec, s) ← readDigits 2 s
  let (ns, s) ← parseFrac s
  let s ← parseTz s
  if s = [] then
    let t : DateTime := ⟨y, mo, d, h, mi, sec, ns⟩
    if t.Valid then some t else none
  else none

theorem readDigits_padded (w n : Nat) (hn : n < 10 ^ w) (hw : 1 ≤ w) (r : Str) :
    readDigits w (padZeros w (natToChars n) ++ r) = some (n, r) := by
  have hlen : (padZeros w (natToChars n)).length = w :=
    padZeros_length w _ (natToChars_length_le n w hn hw)
  have htake : (padZeros w (natToChars n) ++ r).take w = padZeros w (natToChars n) :=
    List.take_left' hlen
  have hdrop : (padZeros w (natToChars n) ++ r).drop w = r :=
    List.drop_left' hlen
  have hdig : ∀ c ∈ padZeros w (natToChars n), c.isDigit = true :=
    padZeros_digits w _ (natToChars_digits n)
  rw [readDigits]
  simp only [htake, hdrop]
  rw [if_pos ⟨hlen, hdig⟩, digitsVal_padZeros, digitsVal_natToChars]

theorem takeWhile_digits_append (ds : Str) (c : Char) (r : Str)
    (hds : ∀ x ∈ ds, x.isDigit = true) (hc : c.isDigit = false) :
    (ds ++ c :: r).takeWhile (fun x => x.isDigit) = ds ∧
    (ds ++ c :: r).dropWhile (fun x => x.isDigit) = c :: r := by
  induction ds with
  | nil => simp [List.takeWhile_cons, List.dropWhile_cons, hc]
  | cons d t ih =>
    have hd : d.isDigit = true := hds d (List.mem_cons_self d t)
    have ht : ∀ x ∈ t, x.isDigit = true := fun x hx => hds x (List.mem_cons_of_mem d hx)
    obtain ⟨h1, h2⟩ := ih ht
    constructor
    · simp [List.takeWhile_cons, hd, h1]
    · simp [List.dropWhile_cons, hd, h2]

theorem fracDigits_spec (n : Nat) (hn : n < 1000000000) :
    (∀ c ∈ fracDigits n, c.isDigit = true) ∧
    1 ≤ (fracDigits n).length ∧ (fracDigits n).length ≤ 9 ∧
    digitsVal (fracDigits n) * 10 ^ (9 - (fracDigits n).length) = n := by
  unfold fracDigits
  by_cases h6 : n % 1000000 = 0
  · have hlt : n / 1000000 < 10 ^ 3 := by omega
    have hlen : (padZeros 3 (natToChars (n / 1000000))).length = 3 :=
      padZeros_length _ _ (natToChars_length_le _ 3 hlt (by omega))
    rw [if_pos h6]
    refine ⟨padZeros_digits _ _ (natToChars_digits _), by omega, by omega, ?_⟩
    rw [hlen, digitsVal_padZeros, digitsVal_natToChars]
    omega
  · by_cases h3 : n % 1000 = 0
    · have hlt : n / 1000 < 10 ^ 6 := by omega
      have hlen : (padZeros 6 (natToChars (n / 1000))).length = 6 :=
        padZeros_length _ _ (natToChars_length_le _ 6 hlt (by omega))
      rw [if_neg h6, if_pos h3]
      refine ⟨padZeros_digits _ _ (natToChars_digits _), by omega, by omega, ?_⟩
      rw [hlen, digitsVal_padZeros, digitsVal_natToChars]
      omega
    · have hlt : n < 10 ^ 9 := by omega
      have hlen : (padZeros 9 (natToChars n)).length = 9 :=
        padZeros_length _ _ (natToChars_length_le _ 9 hlt (by omega))
      rw [if_neg h6, if_neg h3]
      refine ⟨padZeros_digits _ _ (natToChars_digits _), by omega, by omega, ?_⟩
      rw [hlen, digitsVal_padZeros, digitsVal_natToChars]
      omega

theorem parseFrac_format (n : Nat) (hn : n < 1000000000) :
    parseFrac ((if n = 0 then [] else '.' :: fracDigits n) ++ ['Z']) = some (n, ['Z']) := by
  by_cases h0 : n = 0
  · subst h0
    simp [parseFrac]
  · rw [if_neg h0]
    obtain ⟨hdig, hge, hle, hval⟩ := fracDigits_spec n hn
    have := takeWhile_digits_append (fracDigits n) 'Z' [] hdig (by decide)
    simp only [List.cons_append, List.append_nil] at this ⊢
    rw [parseFrac]
    simp only [this.1, this.2]
    rw [if_pos ⟨hge, hle⟩, hval]

theorem daysInMonth_le (y m : Nat) : daysInMonth y m ≤ 31 := by
  unfold daysInMonth
  split
  · split <;> omega
  · split <;> omega

theorem expectChar_cons_self (c : Char) (r : Str) : expectChar c (c :: r) = some r := by
  simp [expectChar]

theorem parseDT_formatDT (t : DateTime) (h : t.Valid) :
    parseDT (formatDT t) = some t := by
  obtain ⟨y, mo, d, hr, mi, sec, ns⟩ := t
  obtain ⟨hy, hm1, hm2, hd1, hd2, hh, hmi, hs, hns⟩ := h
  dsimp only at hy hm1 hm2 hd1 hd2 hh hmi hs hns
  have hv : DateTime.Valid ⟨y, mo, d, hr, mi, sec, ns⟩ :=
    ⟨hy, hm1, hm2, hd1, hd2, hh, hmi, hs, hns⟩
  have hd31 : d ≤ 31 := le_trans hd2 (daysInMonth_le y mo)
  simp only [formatDT, parseDT,
    readDigits_padded 4 y (by omega) (by omega),
    readDigits_padded 2 mo (by omega) (by omega),
    readDigits_padded 2 d (by omega) (by omega),
    readDigits_padded 2 hr (by omega) (by omega),
    readDigits_padded 2 mi (by omega) (by omega),
    readDigits_padded 2 sec (by omega) (by omega),
    parseFrac_format ns hns,
    expectChar_cons_self, Option.bind_eq_bind, Option.some_bind]
  rw [show parseTz ['Z'] = some [] from rfl]
  simp [hv]

/-! ### TOML basic strings

Model of the `toml` crate's basic-string codec, used for the `created_at` /
`due_at` timestamp strings and the `tags` entries: quotes, backslashes and
control characters are escaped on output, and the parser undoes the escapes
up to the closing quote. -/

/-- Lower-case hexadecimal digit character. -/
def hexChar (n : Nat) : Char :=
  if n < 10 then digitChar n else Char.ofNat (87 + n)

/-- Value of a hexadecimal digit character (either case). -/
def hexVal? (c : Char) : Option Nat :=
  if c.isDigit then some (digitVal c)
  else if 'a' ≤ c ∧ c ≤ 'f' then some (c.toNat - 87)
  else if 'A' ≤ c ∧ c ≤ 'F' then some (c.toNat - 55)
  else none

theorem hexVal?_hexChar (n : Nat) (h : n < 16) : hexVal? (hexChar n) = some n := by
  interval_cases n <;> decide

/-- Control characters a TOML basic string may not contain in raw form. -/
def isCtrl (c : Char) : Bool := c.toNat < 32 || c.toNat == 127

/-- Escape sequence (or raw occurrence) of one character in a basic string. -/
def escapeChar (c : Char) : Str :=
  if c = '"' then ['\\', '"']
  else if c = '\\' then ['\\', '\\']
  else if c = '\n' then ['\\', 'n']
  else if c = '\r' then ['\\', 'r']
  else if c = '\t' then ['\\', 't']
  else if c = '\x08' then ['\\', 'b']
  else if c = '\x0c' then ['\\', 'f']
  else if isCtrl c then ['\\', 'u', '0', '0', hexChar (c.toNat / 16), hexChar (c.toNat % 16)]
  else [c]

/-- Basic-string encoding of a whole string (without the enclosing quotes). -/
def escapeStr : Str → Str
  | [] => []
  | c :: t => escapeChar c ++ escapeStr t

/-- Decode the four hex digits of a `\uXXXX` escape. -/
def unescapeHex : Str → Option (Char × Str)
  | h1 :: h2 :: h3 :: h4 :: r3 =>
    match hexVal? h1, hexVal? h2, hexVal? h3, hexVal? h4 with
    | some a, some b, some c, some d =>
      some (Char.ofNat (((a * 16 + b) * 16 + c) * 16 + d), r3)
    | _, _, _, _ => none
  | _ => none

/-- Decode the character after a backslash in a basic string. -/
def unescapeOne : Str → Option (Char × Str)
  | [] => none
  | e :: r2 =>
    if e = '"' then some ('"', r2)
    else if e = '\\' then some ('\\', r2)
    else if e = 'n' then some ('\n', r2)
    else if e = 'r' then some ('\r', r2)
    else if e = 't' then some ('\t', r2)
    else if e = 'b' then some ('\x08', r2)
    else if e = 'f' then some ('\x0c', r2)
    else if e = 'u' then unescapeHex r2
    else none

/-- Parse the remainder of a basic string after the opening quote: undo the
escapes, stop at the closing quote, fail on a raw control character or a bad
escape.  Returns the decoded content and the text after the closing quote.
The fuel argument only makes the recursion structural; one unit is spent per
decoded character, so any fuel beyond the input length is enough. -/
def parseBasicStringAux : Nat → Str → Option (Str × Str)
  | 0, _ => none
  | fuel + 1, s =>
    match s with
    | [] => none
    | c :: r =>
      if c = '"' then some ([], r)
      else if c = '\\' then
        match unescapeOne r with
        | none => none
        | some (d, r2) => (parseBasicStringAux fuel r2).map (fun p => (d :: p.1, p.2))
      else if isCtrl c then none
      else (parseBasicStringAux fuel r).map (fun p => (c :: p.1, p.2))

theorem parseBasicStringAux_escapeChar (fuel : Nat) (c : Char) (rest : Str) :
    parseBasicStringAux (fuel + 1) (escapeChar c ++ rest) =
      (parseBasicStringAux fuel rest).map (fun p => (c :: p.1, p.2)) := by
  by_cases h1 : c = '"'
  · subst h1; simp [escapeChar, parseBasicStringAux, unescapeOne]
  by_cases h2 : c = '\\'
  · subst h2; simp [escapeChar, parseBasicStringAux, unescapeOne]
  by_cases h3 : c = '\n'
  · subst h3; simp [escapeChar, parseBasicStringAux, unescapeOne]
  by_cases h4 : c = '\r'
  · subst h4; simp [escapeChar, parseBasicStringAux, unescapeOne]
  by_cases h5 : c = '\t'
  · subst h5; simp [escapeChar, parseBasicStringAux, unescapeOne]
  by_cases h6 : c = '\x08'
  · subst h6; simp [escapeChar, parseBasicStringAux, unescapeOne]
  by_cases h7 : c = '\x0c'
  · subst h7; simp [escapeChar, parseBasicStringAux, unescapeOne]
  by_cases h8 : isCtrl c = true
  · have hv : c.toNat < 32 ∨ c.toNat = 127 := by
      simpa [isCtrl] using h8
    have hhi : c.toNat / 16 < 16 := by omega
    have hlo : c.toNat % 16 < 16 := by omega
    rw [escapeChar, if_neg h1, if_neg h2, if_neg h3, if_neg h4, if_neg h5, if_neg h6,
      if_neg h7, if_pos h8]
    have hval : ((0 * 16 + 0) * 16 + c.toNat / 16) * 16 + c.toNat % 16 = c.toNat := by
      omega
    have hun : unescapeOne ('u' :: '0' :: '0' :: hexChar (c.toNat / 16) ::
        hexChar (c.toNat % 16) :: rest) = some (c, rest) := by
      rw [show unescapeOne ('u' :: '0' :: '0' :: hexChar (c.toNat / 16) ::
        hexChar (c.toNat % 16) :: rest) = unescapeHex ('0' :: '0' :: hexChar (c.toNat / 16)
        :: hexChar (c.toNat % 16) :: rest) from rfl]
      rw [unescapeHex]
      rw [show hexVal? '0' = some 0 from rfl, hexVal?_hexChar _ hhi, hexVal?_hexChar _ hlo]
      dsimp only
      rw [hval, Char.ofNat_toNat]
    rw [show ('\\' :: 'u' :: '0' :: '0' :: hexChar (c.toNat / 16) :: hexChar (c.toNat % 16)
        :: []) ++ rest = '\\' :: 'u' :: '0' :: '0' :: hexChar (c.toNat / 16) ::
        hexChar (c.toNat % 16) :: rest from rfl]
    rw [parseBasicStringAux]
    simp only [if_neg (by decide : ¬ ('\\' : Char) = '"'), if_pos rfl, if_true, hun]
  · rw [escapeChar, if_neg h1, if_neg h2, if_neg h3, if_neg h4, if_neg h5, if_neg h6,
      if_neg h7, if_neg h8]
    rw [List.singleton_append, parseBasicStringAux]
    rw [if_neg h1, if_neg h2, if_neg h8]

theorem escapeStr_length_ge (s : Str) : s.length ≤ (escapeStr s).length := by
  induction s with
  | nil => simp [escapeStr]
  | cons c t ih =>
    rw [escapeStr, List.length_append]
    have : 1 ≤ (escapeChar c).length := by
      unfold escapeChar
      split
      · decide
      · split
        · decide
        · split
          · decide
          · split
            · decide
            · split
              · decide
              · split
                · decide
                · split
                  · decide
                  · split <;> simp
    simp only [List.length_cons]
    omega

theorem parseBasicStringAux_escapeStr (s : Str) :
    ∀ fuel rest, s.length < fuel →
      parseBasicStringAux fuel (escapeStr s ++ '"' :: rest) = some (s, rest) := by
  induction s with
  | nil =>
    intro fuel rest h
    match fuel, h with
    | fuel + 1, _ => rfl
  | cons c t ih =>
    intro fuel rest h
    match fuel, h with
    | fuel + 1, h =>
      rw [escapeStr, List.append_assoc, parseBasicStringAux_escapeChar,
        ih fuel rest (by simp at h; omega)]
      rfl

theorem hexChar_ne_nl (n : Nat) (h : n < 16) : hexChar n ≠ '\n' := by
  interval_cases n <;> decide

theorem escapeChar_ne_nl (c : Char) : ∀ x ∈ escapeChar c, x ≠ '\n' := by
  intro x hx
  unfold escapeChar at hx
  by_cases h1 : c = '"'
  · simp [h1] at hx; rcases hx with rfl | rfl <;> decide
  by_cases h2 : c = '\\'
  · simp [h1, h2] at hx; rcases hx with rfl | rfl; decide
  by_cases h3 : c = '\n'
  · simp [h1, h2, h3] at hx; rcases hx with rfl | rfl <;> decide
  by_cases h4 : c = '\r'
  · simp [h1, h2, h3, h4] at hx; rcases hx with rfl | rfl <;> decide
  by_cases h5 : c = '\t'
  · simp [h1, h2, h3, h4, h5] at hx; rcases hx with rfl | rfl <;> decide
  by_cases h6 : c = '\x08'
  · simp [h1, h2, h3, h4, h5, h6] at hx; rcases hx with rfl | rfl <;> decide
  by_cases h7 : c = '\x0c'
  · simp [h1, h2, h3, h4, h5, h6, h7] at hx; rcases hx with rfl | rfl <;> decide
  by_cases h8 : isCtrl c = true
  · have hv : c.toNat < 32 ∨ c.toNat = 127 := by simpa [isCtrl] using h8
    have hhi : c.toNat / 16 < 16 := by omega
    have hlo : c.toNat % 16 < 16 := by omega
    simp only [h1, h2, h3, h4, h5, h6, h7, h8, if_neg, if_pos, if_false, if_true,
      List.mem_cons, List.mem_singleton, List.not_mem_nil, or_false] at hx
    rcases hx with rfl | rfl | rfl | rfl | rfl | rfl
    · decide
    · decide
    · decide
    · decide
    · exact hexChar_ne_nl (c.toNat / 16) hhi
    · exact hexChar_ne_nl (c.toNat % 16) hlo
  · simp [h1, h2, h3, h4, h5, h6, h7, h8] at hx
    subst hx
    exact h3

theorem escapeStr_ne_nl (s : Str) : ∀ x ∈ escapeStr s, x ≠ '\n' := by
  induction s with
  | nil => intro x hx; simp [escapeStr] at hx
  | cons c t ih =>
    intro x hx
    rw [escapeStr] at hx
    rcases List.mem_append.1 hx with h | h
    · exact escapeChar_ne_nl c x h
    · exact ih x h

/-! ### The FrontMatter struct and its TOML codec

Model of `toml::from_str::<FrontMatter>` / `toml::to_string(&FrontMatter)`
with serde-derived instances, for the struct
`{ id: u32, created_at: DateTime<Utc>, due_at: Option<DateTime<Utc>>, tags: Vec<String> }`:
one `key = value` line per field (`due_at` omitted when `None`), timestamps as
RFC 3339 basic strings, tags as an inline array of basic strings.  The
serde-derived decoder accepts fields in any order, rejects a duplicate or
ill-typed field, requires `id`, `created_at` and `tags`, and ignores unknown
keys. -/

structure FrontMatter where
  id : Nat
  created_at : DateTime
  due_at : Option DateTime
  tags : List Str
deriving DecidableEq

/-- Skip spaces and horizontal tabs. -/
def skipSpaces (s : Str) : Str := s.dropWhile (fun c => c = ' ' || c = '\t')

/-- Characters allowed in a bare TOML key. -/
def isKeyChar (c : Char) : Bool := c.isAlphanum || c = '_' || c = '-'

/-- TOML values occurring in this document sub-format. -/
inductive TomlVal
  | intVal (n : Nat)
  | strVal (s : Str)
  | arrVal (a : List Str)
deriving DecidableEq

/-- Parse the elements of an inline string array after the first element.
Fuel makes the recursion structural; one unit is spent per element. -/
def parseArrRest : Nat → Str → Option (List Str × Str)
  | 0, _ => none
  | fuel + 1, s =>
    match skipSpaces s with
    | [] => none
    | c :: r =>
      if c = ']' then some ([], r)
      else if c = ',' then
        match skipSpaces r with
        | [] => none
        | c2 :: r2 =>
          if c2 = '"' then
            match parseBasicStringAux (r2.length + 1) r2 with
            | none => none
            | some (t, r3) =>
              match parseArrRest fuel r3 with
              | none => none
              | some (ts, r4) => some (t :: ts, r4)
          else none
      else none

/-- Parse an inline string array after the opening bracket. -/
def parseArr (s : Str) : Option (List Str × Str) :=
  match skipSpaces s with
  | [] => none
  | c :: r =>
    if c = ']' then some ([], r)
    else if c = '"' then
      match parseBasicStringAux (r.length + 1) r with
      | none => none
      | some (t, r2) =>
        match parseArrRest (r2.length + 1) r2 with
        | none => none
        | some (ts, r3) => some (t :: ts, r3)
    else none

/-- Parse a TOML value of the shapes this struct uses. -/
def parseVal (s : Str) : Option (TomlVal × Str) :=
  match s with
  | [] => none
  | c :: r =>
    if c = '"' then
      match parseBasicStringAux (r.length + 1) r with
      | none => none
      | some (t, r2) => some (.strVal t, r2)
    else if c = '[' then
      match parseArr r with
      | none => none
      | some (a, r2) => some (.arrVal a, r2)
    else if c.isDigit then
      some (.intVal (digitsVal ((c :: r).takeWhile (fun x => x.isDigit))),
        (c :: r).dropWhile (fun x => x.isDigit))
    else none

/-- Parse one line of the front-matter block: blank, or `key = value`. -/
def parseLine (l : Str) : Option (Option (Str × TomlVal)) :=
  match skipSpaces l with
  | [] => some none
  | l1 =>
    let key := l1.takeWhile isKeyChar
    let r1 := l1.dropWhile isKeyChar
    if key = [] then none
    else
      match skipSpaces r1 with
      | [] => none
      | c :: r2 =>
        if c = '=' then
          match parseVal (skipSpaces r2) with
          | none => none
          | some (v, r3) =>
            if skipSpaces r3 = [] then some (some (key, v)) else none
        else none

/-- Split a text into its lines at every newline character. -/
def splitOnNl : Str → List Str
  | [] => [[]]
  | c :: r =>
    if c = '\n' then [] :: splitOnNl r
    else
      match splitOnNl r with
      | [] => [[c]]
      | l :: ls => (c :: l) :: ls

/-- Fields of a `FrontMatter` collected so far while decoding. -/
structure FMBuilder where
  idF : Option Nat
  createdF : Option DateTime
  dueF : Option DateTime
  tagsF : Option (List Str)
deriving DecidableEq

/-- Empty builder. -/
def emptyFMB : FMBuilder := ⟨none, none, none, none⟩

/-- Set the `id` field from a TOML value: it must be an integer fitting in
`u32`, and the field must not already be set. -/
def setId (b : FMBuilder) : TomlVal → Option FMBuilder
  | .intVal n =>
    if b.idF = none then
      if n < 4294967296 then some { b with idF := some n } else none
    else none
  | _ => none

/-- Set the `created_at` field: a string holding an RFC 3339 timestamp. -/
def setCreated (b : FMBuilder) : TomlVal → Option FMBuilder
  | .strVal s =>
    if b.createdF = none then
      match parseDT s with
      | none => none
      | some t => some { b with createdF := some t }
    else none
  | _ => none

/-- Set the `due_at` field: a string holding an RFC 3339 timestamp. -/
def setDue (b : FMBuilder) : TomlVal → Option FMBuilder
  | .strVal s =>
    if b.dueF = none then
      match parseDT s with
      | none => none
      | some t => some { b with dueF := some t }
    else none
  | _ => none

/-- Set the `tags` field: an array of strings. -/
def setTags (b : FMBuilder) : TomlVal → Option FMBuilder
  | .arrVal a => if b.tagsF = none then some { b with tagsF := some a } else none
  | _ => none

/-- Record one parsed `key = value` pair: the four known keys must have the
right value shape and must not repeat; an unknown key is ignored (the
serde-derived decoder has no `deny_unknown_fields`). -/
def applyLine (b : FMBuilder) (k : Str) (v : TomlVal) : Option FMBuilder :=
  if k = "id".data then setId b v
  else if k = "created_at".data then setCreated b v
  else if k = "due_at".data then setDue b v
  else if k = "tags".data then setTags b v
  else some b

/-- Require the mandatory fields (`due_at` is the one optional field). -/
def finishFM (b : FMBuilder) : Option FrontMatter :=
  match b.idF, b.createdF, b.tagsF with
  | some i, some c, some ts => some ⟨i, c, b.dueF, ts⟩
  | _, _, _ => none

/-- Process the lines of the front-matter block in order. -/
def decodeLines : FMBuilder → List Str → Option FMBuilder
  | b, [] => some b
  | b, l :: ls =>
    match parseLine l with
    | none => none
    | some none => decodeLines b ls
    | some (some (k, v)) =>
      match applyLine b k v with
      | none => none
      | some b2 => decodeLines b2 ls

/-- Model of `toml::from_str::<FrontMatter>` on the front-matter segment. -/
def decodeFM (seg : Str) : Option FrontMatter :=
  match decodeLines emptyFMB (splitOnNl seg) with
  | none => none
  | some b => finishFM b

/-- A quoted basic string. -/
def quoteStr (s : Str) : Str := '"' :: (escapeStr s ++ ['"'])

/-- Elements of an inline string array after the first element. -/
def encodeTagsRest : List Str → Str
  | [] => []
  | t :: ts => ',' :: ' ' :: (quoteStr t ++ encodeTagsRest ts)

/-- Elements of an inline string array. -/
def encodeTags : List Str → Str
  | [] => []
  | t :: ts => quoteStr t ++ encodeTagsRest ts

/-- The `key = value` lines emitted for a `FrontMatter`, in field order. -/
def tomlLines (fm : FrontMatter) : List Str :=
  ("id = ".data ++ natToChars fm.id) ::
  ("created_at = ".data ++ quoteStr (formatDT fm.created_at)) ::
  ((match fm.due_at with
    | none => []
    | some t => [("due_at = ".data ++ quoteStr (formatDT t))]) ++
  [("tags = [".data ++ (encodeTags fm.tags ++ [']']))])

/-- Join lines, terminating each with a newline. -/
def joinLines : List Str → Str
  | [] => []
  | l :: ls => l ++ '\n' :: joinLines ls

/-- Model of `toml::to_string(&FrontMatter)`. -/
def tomlEncode (fm : FrontMatter) : Str := joinLines (tomlLines fm)

/-! ### The document codec: `TodoData::to_bytes` and `TodoData::from_str` -/

/-- The delimiter pattern `from_str` splits on: `"+++\n"`. -/
def delim : Str := ['+', '+', '+', '\n']

/-- First occurrence of `pat` in a string: the text before it and after it
(Rust's `str::find`-based splitting step). -/
def findSplit (pat : Str) : Str → Option (Str × Str)
  | [] => if pat.isPrefixOf ([] : Str) then some ([], ([] : Str).drop pat.length) else none
  | c :: rest =>
    if pat.isPrefixOf (c :: rest) then some ([], (c :: rest).drop pat.length)
    else
      match findSplit pat rest with
      | none => none
      | some (pre, post) => some (c :: pre, post)

/-- Rust's `str::splitn(n, pat)`: split on the first `n - 1` non-overlapping
occurrences of `pat`; the last piece is the unsplit remainder. -/
def splitn : Nat → Str → Str → List Str
  | 0, _, _ => []
  | 1, _, s => [s]
  | n + 2, pat, s =>
    match findSplit pat s with
    | none => [s]
    | some (pre, post) => pre :: splitn (n + 1) pat post

/-- Error values `from_str` can return: `anyhow!("invalid content")` for the
(unreachable) empty-split check, and the propagated TOML decode error. -/
inductive ParseError
  | formatError
  | schemaError
deriving DecidableEq

/-- Outcome of running an embedded Rust function: a value, a returned error,
or a panic (`unwrap` of `None`), which aborts the process. -/
inductive ParseOutcome (α : Type)
  | ok (a : α)
  | err (e : ParseError)
  | crash
deriving DecidableEq

/-- A parsed document: front matter plus verbatim body. -/
structure TodoData where
  front_matter : FrontMatter
  content : Str
deriving DecidableEq

/-- Model of `TodoData::to_bytes`: `+++\n`, the TOML front matter, an extra
newline, `+++\n`, then the body verbatim. -/
def TodoData.to_bytes (d : TodoData) : Str :=
  delim ++ (tomlEncode d.front_matter ++ '\n' :: (delim ++ d.content))

/-- Model of `TodoData::from_str`: split into at most three parts on
`"+++\n"`; `parts.get(1).unwrap()` must decode as TOML front matter and
`parts.get(2).unwrap()` is the body.  Either `unwrap` panics when the
delimiter occurs fewer than two times. -/
def TodoData.from_str (s : Str) : ParseOutcome TodoData :=
  let parts := splitn 3 delim s
  if parts = [] then .err .formatError
  else
    match parts[1]? with
    | none => .crash
    | some fmSeg =>
      match decodeFM fmSeg with
      | none => .err .schemaError
      | some fm =>
        match parts[2]? with
        | none => .crash
        | some body => .ok ⟨fm, body⟩

/-! ### Validity

The representable `FrontMatter` values: a `u32` identifier and in-range
timestamps (these are invariants of the Rust types `u32` and
`DateTime<Utc>`, made explicit by the embedding). -/

/-- Validity of an optional timestamp. -/
def OptValid : Option DateTime → Prop
  | none => True
  | some t => t.Valid

instance : (o : Option DateTime) → Decidable (OptValid o)
  | none => isTrue trivial
  | some t => inferInstanceAs (Decidable t.Valid)

/-- Representable front matter. -/
def FrontMatter.Valid (fm : FrontMatter) : Prop :=
  fm.id < 4294967296 ∧ fm.created_at.Valid ∧ OptValid fm.due_at

instance (fm : FrontMatter) : Decidable fm.Valid := by
  unfold FrontMatter.Valid
  infer_instance

/-- Representable document (the body is arbitrary text). -/
def TodoData.Valid (d : TodoData) : Prop := d.front_matter.Valid

instance (d : TodoData) : Decidable d.Valid := by
  unfold TodoData.Valid
  infer_instance

/-! ### The record store: `load_collection` and `next_data_id` -/

/-- Outcome of `load_collection`: the collection as an association list in
insertion order, the duplicate-identifier error, or a panic propagated from
`TodoData::from_str`. -/
inductive LoadOutcome
  | ok (c : List (Nat × TodoData))
  | conflictError
  | crash
deriving DecidableEq

/-- Scan loop of `load_collection`: parse each file, skip files whose parse
returns an error, abort with `ConflictError` when a parsed id is already
present (a panic aborts the whole scan). -/
def load_collection_aux : List (Nat × TodoData) → List Str → LoadOutcome
  | acc, [] => .ok acc
  | acc, s :: rest =>
    match TodoData.from_str s with
    | .crash => .crash
    | .err _ => load_collection_aux acc rest
    | .ok d =>
      if (acc.map Prod.fst).contains d.front_matter.id then .conflictError
      else load_collection_aux (acc ++ [(d.front_matter.id, d)]) rest

/-- Model of `load_collection`: the input is the contents of the regular
`.md` files of the tasks directory, in scan order. -/
def load_collection (contents : List Str) : LoadOutcome :=
  load_collection_aux [] contents

/-- Maximum of a list of keys, as `Iterator::max` over `HashMap::keys`. -/
def maxKey? (l : List Nat) : Option Nat :=
  l.foldl (fun acc k =>
    match acc with
    | none => some k
    | some m => some (max m k)) none

/-- Model of `CommandProcessor::next_data_id`:
`keys().max().map_or_else(|| 1, |last| last + 1)` with `u32` arithmetic
(the release-profile wrapping semantics of `last + 1`). -/
def next_data_id (keys : List Nat) : Nat :=
  match maxKey? keys with
  | none => 1
  | some m => (m + 1) % 4294967296

/-! ### `TodoFile::gen_filepath` and the template pipeline -/

/-- Model of `TodoFile::gen_filepath`: current directory, `tasks`
subdirectory, identifier zero-padded to ten digits, `.todo.md` suffix. -/
def gen_filepath (cwd : Str) (id : Nat) : Str :=
  cwd ++ "/tasks/".data ++ (padZeros 10 (natToChars id) ++ ".todo.md".data)

/-- Outcome of `create_todo_data_from_template`. -/
inductive CreateOutcome
  | renderError
  | invalidTemplate (template : Str) (e : ParseError)
  | crash
  | ok (d : TodoData)
deriving DecidableEq

/-- Model of `CommandProcessor::create_todo_data_from_template`: render the
named template (the handlebars engine is an external collaborator, supplied
here as its result: `none` models a render error), then re-parse the rendered
text through `TodoData::from_str`; a returned parse error is wrapped with the
template name (`anyhow!("invalid template '{template}': ...")`). -/
def create_todo_data_from_template (template : Str) (rendered : Option Str) : CreateOutcome :=
  match rendered with
  | none => .renderError
  | some text =>
    match TodoData.from_str text with
    | .crash => .crash
    | .err e => .invalidTemplate template e
    | .ok d => .ok d

/-! ### Where the delimiter can occur

The serialized front-matter block contains no `"+++\n"` occurrence: a scanner
shows it never even contains a `'+'` immediately followed by a newline. -/

/-- No `'+'` immediately followed by `'\n'` anywhere in the string. -/
def nlGuardB : Str → Bool
  | [] => true
  | c1 :: r =>
    (match r.head? with
     | some c2 => !(c1 == '+' && c2 == '\n')
     | none => true) && nlGuardB r

theorem nlGuardB_cons_cons (c1 c2 : Char) (r : Str) :
    nlGuardB (c1 :: c2 :: r) = ((!(c1 == '+' && c2 == '\n')) && nlGuardB (c2 :: r)) := rfl

theorem nlGuardB_tail (c : Char) (t : Str) (h : nlGuardB (c :: t) = true) :
    nlGuardB t = true := by
  rw [nlGuardB] at h
  exact (Bool.and_eq_true_iff.1 h).2

theorem nlGuardB_append (a b : Str) (ha : nlGuardB a = true) (hb : nlGuardB b = true)
    (hx : a.getLast? ≠ some '+' ∨ b.head? ≠ some '\n') : nlGuardB (a ++ b) = true := by
  induction a with
  | nil => simpa using hb
  | cons c a' ih =>
    cases a' with
    | nil =>
      cases b with
      | nil => rfl
      | cons d b' =>
        rw [List.singleton_append, nlGuardB_cons_cons]
        refine Bool.and_eq_true_iff.2 ⟨?_, hb⟩
        rcases hx with hx | hx
        · simp only [List.getLast?_singleton] at hx
          simp only [Bool.not_eq_eq_eq_not, Bool.not_true, Bool.and_eq_false_iff]
          left
          simpa using fun hc => hx (by rw [hc])
        · simp only [List.head?_cons] at hx
          simp only [Bool.not_eq_eq_eq_not, Bool.not_true, Bool.and_eq_false_iff]
          right
          simpa using fun hd => hx (by rw [hd])
    | cons c2 a'' =>
      rw [nlGuardB_cons_cons] at ha
      obtain ⟨h1, h2⟩ := Bool.and_eq_true_iff.1 ha
      have hx' : (c2 :: a'').getLast? ≠ some '+' ∨ b.head? ≠ some '\n' := by
        rcases hx with hx | hx
        · left
          rwa [List.getLast?_cons_cons] at hx
        · right
          exact hx
      have := ih h2 hx'
      rw [List.cons_append, List.cons_append, nlGuardB_cons_cons]
      rw [List.cons_append] at this
      exact Bool.and_eq_true_iff.2 ⟨h1, this⟩

theorem nlGuardB_of_noNl (s : Str) (h : ∀ c ∈ s, c ≠ '\n') : nlGuardB s = true := by
  induction s with
  | nil => rfl
  | cons c t ih =>
    cases t with
    | nil => rfl
    | cons c2 r =>
      rw [nlGuardB_cons_cons]
      refine Bool.and_eq_true_iff.2 ⟨?_, ih (fun x hx => h x (List.mem_cons_of_mem c hx))⟩
      have hc2 : c2 ≠ '\n' := h c2 (List.mem_cons_of_mem c (List.mem_cons_self c2 r))
      simp only [Bool.not_eq_eq_eq_not, Bool.not_true, Bool.and_eq_false_iff]
      right
      simpa using fun hd => hc2 (by rw [hd])

theorem nlGuardB_plusNl (x y : Str) : nlGuardB (x ++ '+' :: '\n' :: y) = false := by
  induction x with
  | nil => rfl
  | cons c x' ih =>
    cases x' with
    | nil =>
      rw [List.cons_append, List.nil_append, nlGuardB_cons_cons, nlGuardB_cons_cons]
      simp
    | cons d x'' =>
      rw [List.cons_append, List.cons_append, nlGuardB_cons_cons]
      rw [List.cons_append] at ih
      rw [ih]
      simp

/-- A string passing the scanner contains no occurrence of the delimiter. -/
theorem nlGuardB_no_delim (s : Str) (h : nlGuardB s = true) :
    ∀ x y, s ≠ x ++ (delim ++ y) := by
  intro x y heq
  have : s = (x ++ ['+', '+']) ++ '+' :: '\n' :: y := by
    rw [heq]
    simp [delim]
  rw [this, nlGuardB_plusNl] at h
  exact Bool.false_ne_true h

theorem findSplit_delim_self (x : Str) : findSplit delim (delim ++ x) = some ([], x) := by
  rw [show delim ++ x = '+' :: '+' :: '+' :: '\n' :: x from rfl, findSplit]
  rw [if_pos (by simp [delim, List.isPrefixOf])]
  rfl

theorem findSplit_delim_append (a b : Str) (h : nlGuardB a = true) :
    findSplit delim (a ++ (delim ++ b)) = some (a, b) := by
  induction a with
  | nil =>
    rw [List.nil_append]
    exact findSplit_delim_self b
  | cons c a' ih =>
    have hnp : ¬ delim.isPrefixOf (c :: (a' ++ (delim ++ b))) = true := by
      intro hp
      match a' with
      | [] => simp [delim, List.isPrefixOf] at hp
      | [c2] => simp [delim, List.isPrefixOf] at hp
      | [c2, c3] => simp [delim, List.isPrefixOf] at hp
      | c2 :: c3 :: c4 :: rest =>
        simp only [delim, List.cons_append, List.isPrefixOf, Bool.and_eq_true_iff,
          beq_iff_eq, List.nil_append] at hp
        obtain ⟨h1, h2, h3, h4, _⟩ := hp
        subst h1; subst h2; subst h3; subst h4
        have : nlGuardB ('+' :: '+' :: '+' :: '\n' :: rest) = false := by
          have := nlGuardB_plusNl ['+', '+'] rest
          simpa using this
        rw [this] at h
        exact Bool.false_ne_true h
    rw [List.cons_append, findSplit, if_neg hnp,
      ih (nlGuardB_tail c a' h)]

theorem splitn3_delim (a b : Str) (h : nlGuardB a = true) :
    splitn 3 delim (delim ++ (a ++ (delim ++ b))) = [[], a, b] := by
  rw [show splitn 3 delim (delim ++ (a ++ (delim ++ b))) =
      (match findSplit delim (delim ++ (a ++ (delim ++ b))) with
       | none => [delim ++ (a ++ (delim ++ b))]
       | some (pre, post) => pre :: splitn 2 delim post) from rfl]
  rw [findSplit_delim_self]
  dsimp only
  rw [show splitn 2 delim (a ++ (delim ++ b)) =
      (match findSplit delim (a ++ (delim ++ b)) with
       | none => [a ++ (delim ++ b)]
       | some (pre, post) => pre :: splitn 1 delim post) from rfl]
  rw [findSplit_delim_append a b h]
  rfl

/-! ### Lines of the encoded front matter -/

theorem splitOnNl_line (l : Str) (hl : ∀ c ∈ l, c ≠ '\n') (r : Str) :
    splitOnNl (l ++ '\n' :: r) = l :: splitOnNl r := by
  induction l with
  | nil => simp [splitOnNl]
  | cons c t ih =>
    have hc : c ≠ '\n' := hl c (List.mem_cons_self c t)
    rw [List.cons_append, splitOnNl, if_neg hc,
      ih (fun x hx => hl x (List.mem_cons_of_mem c hx))]

theorem splitOnNl_joinLines (ls : List Str) (h : ∀ l ∈ ls, ∀ c ∈ l, c ≠ '\n') (r : Str) :
    splitOnNl (joinLines ls ++ r) = ls ++ splitOnNl r := by
  induction ls with
  | nil => simp [joinLines]
  | cons l ls ih =>
    rw [joinLines, List.append_assoc, List.cons_append,
      splitOnNl_line l (h l (List.mem_cons_self l ls)),
      ih (fun x hx => h x (List.mem_cons_of_mem l hx))]
    rfl

/-! ### Round trip of the TOML front-matter codec -/

theorem takeWhile_all_append (p : Char → Bool) (xs : Str) (hall : ∀ x ∈ xs, p x = true)
    (y : Char) (hy : p y = false) (r : Str) :
    (xs ++ y :: r).takeWhile p = xs ∧ (xs ++ y :: r).dropWhile p = y :: r := by
  induction xs with
  | nil => simp [List.takeWhile_cons, List.dropWhile_cons, hy]
  | cons d t ih =>
    have hd := hall d (List.mem_cons_self d t)
    obtain ⟨h1, h2⟩ := ih (fun x hx => hall x (List.mem_cons_of_mem d hx))
    refine ⟨?_, ?_⟩
    · simp [List.takeWhile_cons, hd, h1]
    · simp [List.dropWhile_cons, hd, h2]

theorem takeWhile_all (p : Char → Bool) (xs : Str) (hall : ∀ x ∈ xs, p x = true) :
    xs.takeWhile p = xs ∧ xs.dropWhile p = [] := by
  induction xs with
  | nil => simp
  | cons d t ih =>
    have hd := hall d (List.mem_cons_self d t)
    obtain ⟨h1, h2⟩ := ih (fun x hx => hall x (List.mem_cons_of_mem d hx))
    refine ⟨?_, ?_⟩
    · simp [List.takeWhile_cons, hd, h1]
    · simp [List.dropWhile_cons, hd, h2]

theorem skipSpaces_cons (c : Char) (r : Str) (h1 : c ≠ ' ') (h2 : c ≠ '\t') :
    skipSpaces (c :: r) = c :: r := by
  rw [skipSpaces, List.dropWhile_cons]
  simp [h1, h2]

theorem skipSpaces_space (r : Str) : skipSpaces (' ' :: r) = skipSpaces r := by
  rw [skipSpaces, List.dropWhile_cons]
  simp [skipSpaces]

theorem skipSpaces_digits (s : Str) (h : ∀ c ∈ s, c.isDigit = true) :
    skipSpaces s = s := by
  cases s with
  | nil => rfl
  | cons c r =>
    have hc := h c (List.mem_cons_self c r)
    refine skipSpaces_cons c r ?_ ?_ <;> (intro e; rw [e] at hc; exact absurd hc (by decide))

theorem parseVal_nat (i : Nat) : parseVal (natToChars i) = some (.intVal i, []) := by
  obtain ⟨d, ds, hds⟩ : ∃ d ds, natToChars i = d :: ds := by
    rcases h : natToChars i with _ | ⟨d, ds⟩
    · exact absurd h (natToChars_ne_nil i)
    · exact ⟨d, ds, rfl⟩
  have hall : ∀ c ∈ natToChars i, c.isDigit = true := natToChars_digits i
  have hd : d.isDigit = true := by
    rw [hds] at hall
    exact hall d (List.mem_cons_self d ds)
  have htw := takeWhile_all (fun x => x.isDigit) (natToChars i) hall
  rw [hds] at htw
  rw [hds, parseVal]
  rw [if_neg (show ¬d = '"' by intro e; rw [e] at hd; exact absurd hd (by decide)),
    if_neg (show ¬d = '[' by intro e; rw [e] at hd; exact absurd hd (by decide)),
    if_pos hd, htw.1, htw.2, ← hds, digitsVal_natToChars]

theorem parseVal_quote (s : Str) : parseVal (quoteStr s) = some (.strVal s, []) := by
  rw [quoteStr, parseVal, if_pos rfl]
  have hlen : s.length < (escapeStr s ++ ['"']).length + 1 := by
    have := escapeStr_length_ge s
    simp only [List.length_append, List.length_singleton]
    omega
  rw [parseBasicStringAux_escapeStr s ((escapeStr s ++ ['"']).length + 1) [] hlen]

theorem encodeTagsRest_length_ge (ts : List Str) :
    ts.length ≤ (encodeTagsRest ts).length := by
  induction ts with
  | nil => simp [encodeTagsRest]
  | cons t ts ih =>
    rw [encodeTagsRest]
    simp only [List.length_cons, List.length_append]
    omega

theorem parseArrRest_encode (ts : List Str) :
    ∀ fuel rest, ts.length < fuel →
      parseArrRest fuel (encodeTagsRest ts ++ ']' :: rest) = some (ts, rest) := by
  induction ts with
  | nil =>
    intro fuel rest h
    match fuel, h with
    | fuel + 1, _ =>
      rw [encodeTagsRest, List.nil_append, parseArrRest,
        skipSpaces_cons ']' rest (by decide) (by decide)]
      dsimp only
      rw [if_pos rfl]
  | cons t ts ih =>
    intro fuel rest h
    match fuel, h with
    | fuel + 1, h =>
      rw [encodeTagsRest, List.cons_append, List.cons_append, parseArrRest,
        skipSpaces_cons ',' _ (by decide) (by decide)]
      dsimp only
      rw [if_neg (by decide), if_pos rfl, skipSpaces_space]
      rw [show (quoteStr t ++ encodeTagsRest ts) ++ ']' :: rest =
        '"' :: (escapeStr t ++ '"' :: (encodeTagsRest ts ++ ']' :: rest)) from by
          rw [quoteStr]
          simp]
      rw [skipSpaces_cons '"' _ (by decide) (by decide)]
      dsimp only
      rw [if_pos rfl]
      have hlen : t.length < (escapeStr t ++ '"' :: (encodeTagsRest ts ++ ']' :: rest)).length + 1 := by
        have := escapeStr_length_ge t
        simp only [List.length_append, List.length_cons]
        omega
      rw [parseBasicStringAux_escapeStr t _ _ hlen]
      dsimp only
      rw [ih fuel rest (by simpa using Nat.lt_of_succ_lt_succ (by simpa using h))]

theorem parseVal_tags (ts : List Str) :
    parseVal ('[' :: (encodeTags ts ++ [']'])) = some (.arrVal ts, []) := by
  rw [parseVal, if_neg (by decide), if_pos rfl]
  cases ts with
  | nil =>
    rw [encodeTags, List.nil_append, parseArr,
      skipSpaces_cons ']' [] (by decide) (by decide)]
    dsimp only
    rw [if_pos rfl]
  | cons t ts' =>
    rw [encodeTags, parseArr]
    rw [show (quoteStr t ++ encodeTagsRest ts') ++ [']'] =
      '"' :: (escapeStr t ++ '"' :: (encodeTagsRest ts' ++ ']' :: [])) from by
        rw [quoteStr]
        simp]
    rw [skipSpaces_cons '"' _ (by decide) (by decide)]
    dsimp only
    rw [if_neg (by decide), if_pos rfl]
    have hlen : t.length < (escapeStr t ++ '"' :: (encodeTagsRest ts' ++ ']' :: [])).length + 1 := by
      have := escapeStr_length_ge t
      simp only [List.length_append, List.length_cons]
      omega
    rw [parseBasicStringAux_escapeStr t _ _ hlen]
    dsimp only
    have hfuel : ts'.length < (encodeTagsRest ts' ++ ']' :: []).length + 1 := by
      have := encodeTagsRest_length_ge ts'
      simp only [List.length_append, List.length_cons]
      omega
    rw [parseArrRest_encode ts' _ [] hfuel]

theorem parseLine_keyval (key rest : Str) (hne : key ≠ [])
    (hkey : ∀ c ∈ key, isKeyChar c = true) (hr : skipSpaces rest = rest) :
    parseLine (key ++ ' ' :: '=' :: ' ' :: rest) =
      match parseVal rest with
      | none => none
      | some (v, r3) => if skipSpaces r3 = [] then some (some (key, v)) else none := by
  obtain ⟨k0, kt, rfl⟩ : ∃ k0 kt, key = k0 :: kt := by
    rcases key with _ | ⟨k0, kt⟩
    · exact absurd rfl hne
    · exact ⟨k0, kt, rfl⟩
  have hk0 : isKeyChar k0 = true := hkey k0 (List.mem_cons_self k0 kt)
  have hsk : skipSpaces ((k0 :: kt) ++ ' ' :: '=' :: ' ' :: rest) =
      k0 :: (kt ++ ' ' :: '=' :: ' ' :: rest) := by
    rw [List.cons_append]
    refine skipSpaces_cons k0 _ ?_ ?_ <;>
      (intro e; rw [e] at hk0; exact absurd hk0 (by decide))
  have htw := takeWhile_all_append isKeyChar (k0 :: kt) hkey ' ' (by decide)
    ('=' :: ' ' :: rest)
  rw [parseLine, hsk]
  dsimp only
  rw [← List.cons_append, htw.1, htw.2]
  rw [if_neg (by simp), skipSpaces_space,
    skipSpaces_cons '=' _ (by decide) (by decide)]
  dsimp only
  rw [if_pos rfl, skipSpaces_space, hr]

theorem parseLine_idLine (i : Nat) :
    parseLine ("id = ".data ++ natToChars i) = some (some ("id".data, .intVal i)) := by
  rw [show "id = ".data ++ natToChars i = "id".data ++ ' ' :: '=' :: ' ' :: natToChars i
    from rfl]
  rw [parseLine_keyval "id".data (natToChars i) (by decide) (by decide)
    (skipSpaces_digits _ (natToChars_digits i))]
  rw [parseVal_nat i]
  rfl

theorem parseLine_strLine (key : Str) (hne : key ≠ [])
    (hkey : ∀ c ∈ key, isKeyChar c = true) (s : Str) :
    parseLine (key ++ ' ' :: '=' :: ' ' :: quoteStr s) = some (some (key, .strVal s)) := by
  rw [parseLine_keyval key (quoteStr s) hne hkey
    (by rw [quoteStr]; exact skipSpaces_cons '"' _ (by decide) (by decide))]
  rw [parseVal_quote s]
  rfl

theorem parseLine_tagsLine (ts : List Str) :
    parseLine ("tags = [".data ++ (encodeTags ts ++ [']'])) =
      some (some ("tags".data, .arrVal ts)) := by
  rw [show "tags = [".data ++ (encodeTags ts ++ [']']) =
    "tags".data ++ ' ' :: '=' :: ' ' :: ('[' :: (encodeTags ts ++ [']'])) from rfl]
  rw [parseLine_keyval "tags".data _ (by decide) (by decide)
    (skipSpaces_cons '[' _ (by decide) (by decide))]
  rw [parseVal_tags ts]
  rfl

theorem applyLine_id (b : FMBuilder) (hb : b.idF = none) (n : Nat)
    (hn : n < 4294967296) :
    applyLine b "id".data (.intVal n) = some { b with idF := some n } := by
  rw [applyLine, if_pos rfl, setId, if_pos hb, if_pos hn]

theorem applyLine_created (b : FMBuilder) (hb : b.createdF = none) (s : Str)
    (t : DateTime) (hs : parseDT s = some t) :
    applyLine b "created_at".data (.strVal s) = some { b with createdF := some t } := by
  rw [applyLine, if_neg (by decide), if_pos rfl, setCreated, if_pos hb, hs]

theorem applyLine_due (b : FMBuilder) (hb : b.dueF = none) (s : Str)
    (t : DateTime) (hs : parseDT s = some t) :
    applyLine b "due_at".data (.strVal s) = some { b with dueF := some t } := by
  rw [applyLine, if_neg (by decide), if_neg (by decide), if_pos rfl, setDue,
    if_pos hb, hs]

theorem applyLine_tags (b : FMBuilder) (hb : b.tagsF = none) (a : List Str) :
    applyLine b "tags".data (.arrVal a) = some { b with tagsF := some a } := by
  rw [applyLine, if_neg (by decide), if_neg (by decide), if_neg (by decide), if_pos rfl,
    setTags, if_pos hb]

theorem decodeLines_tomlLines (fm : FrontMatter) (h : fm.Valid) :
    decodeLines emptyFMB (tomlLines fm ++ [[], []]) =
      some ⟨some fm.id, some fm.created_at, fm.due_at, some fm.tags⟩ := by
  obtain ⟨hid, hca, hdue⟩ := h
  rw [tomlLines]
  cases hd : fm.due_at with
  | none =>
    rw [show (("id = ".data ++ natToChars fm.id) ::
        ("created_at = ".data ++ quoteStr (formatDT fm.created_at)) ::
        (([] : List Str) ++ [("tags = [".data ++ (encodeTags fm.tags ++ [']']))])) ++
        [[], []] =
      ("id = ".data ++ natToChars fm.id) ::
        ("created_at = ".data ++ quoteStr (formatDT fm.created_at)) ::
        ("tags = [".data ++ (encodeTags fm.tags ++ [']'])) :: [[], []] from by simp]
    rw [decodeLines, parseLine_idLine]
    dsimp only
    rw [applyLine_id emptyFMB rfl fm.id hid]
    dsimp only
    rw [decodeLines]
    rw [show "created_at = ".data ++ quoteStr (formatDT fm.created_at) =
      "created_at".data ++ ' ' :: '=' :: ' ' :: quoteStr (formatDT fm.created_at) from rfl]
    rw [parseLine_strLine "created_at".data (by decide) (by decide) _]
    dsimp only
    rw [applyLine_created _ rfl _ fm.created_at (parseDT_formatDT fm.created_at hca)]
    dsimp only
    rw [decodeLines, parseLine_tagsLine]
    dsimp only
    rw [applyLine_tags _ rfl fm.tags]
    dsimp only
    rw [decodeLines]
    rw [show parseLine [] = some none from rfl]
    dsimp only
    rw [decodeLines]
    rw [show parseLine [] = some none from rfl]
    dsimp only
    rw [decodeLines]
    rfl
  | some td =>
    have htd : td.Valid := by
      rw [hd] at hdue
      exact hdue
    rw [show (("id = ".data ++ natToChars fm.id) ::
        ("created_at = ".data ++ quoteStr (formatDT fm.created_at)) ::
        ([("due_at = ".data ++ quoteStr (formatDT td))] ++
          [("tags = [".data ++ (encodeTags fm.tags ++ [']']))])) ++ [[], []] =
      ("id = ".data ++ natToChars fm.id) ::
        ("created_at = ".data ++ quoteStr (formatDT fm.created_at)) ::
        ("due_at = ".data ++ quoteStr (formatDT td)) ::
        ("tags = [".data ++ (encodeTags fm.tags ++ [']'])) :: [[], []] from by simp]
    rw [decodeLines, parseLine_idLine]
    dsimp only
    rw [applyLine_id emptyFMB rfl fm.id hid]
    dsimp only
    rw [decodeLines]
    rw [show "created_at = ".data ++ quoteStr (formatDT fm.created_at) =
      "created_at".data ++ ' ' :: '=' :: ' ' :: quoteStr (formatDT fm.created_at) from rfl]
    rw [parseLine_strLine "created_at".data (by decide) (by decide) _]
    dsimp only
    rw [applyLine_created _ rfl _ fm.created_at (parseDT_formatDT fm.created_at hca)]
    dsimp only
    rw [decodeLines]
    rw [show "due_at = ".data ++ quoteStr (formatDT td) =
      "due_at".data ++ ' ' :: '=' :: ' ' :: quoteStr (formatDT td) from rfl]
    rw [parseLine_strLine "due_at".data (by decide) (by decide) _]
    dsimp only
    rw [applyLine_due _ rfl _ td (parseDT_formatDT td htd)]
    dsimp only
    rw [decodeLines, parseLine_tagsLine]
    dsimp only
    rw [applyLine_tags _ rfl fm.tags]
    dsimp only
    rw [decodeLines]
    rw [show parseLine [] = some none from rfl]
    dsimp only
    rw [decodeLines]
    rw [show parseLine [] = some none from rfl]
    dsimp only
    rw [decodeLines]

theorem append_ne_nl (a b : Str) (ha : ∀ c ∈ a, c ≠ '\n') (hb : ∀ c ∈ b, c ≠ '\n') :
    ∀ c ∈ a ++ b, c ≠ '\n' := by
  intro c hc
  rcases List.mem_append.1 hc with h | h
  · exact ha c h
  · exact hb c h

theorem isDigit_ne_nl (c : Char) (h : c.isDigit = true) : c ≠ '\n' := by
  intro e
  rw [e] at h
  exact absurd h (by decide)

theorem isDigit_ne_plus (c : Char) (h : c.isDigit = true) : c ≠ '+' := by
  intro e
  rw [e] at h
  exact absurd h (by decide)

theorem quoteStr_ne_nl (s : Str) : ∀ c ∈ quoteStr s, c ≠ '\n' := by
  intro c hc
  rw [quoteStr] at hc
  rcases List.mem_cons.1 hc with rfl | hc2
  · decide
  · rcases List.mem_append.1 hc2 with h | h
    · exact escapeStr_ne_nl s c h
    · rw [List.mem_singleton.1 h]
      decide

theorem encodeTagsRest_ne_nl (ts : List Str) : ∀ c ∈ encodeTagsRest ts, c ≠ '\n' := by
  induction ts with
  | nil =>
    intro c hc
    simp [encodeTagsRest] at hc
  | cons t ts ih =>
    intro c hc
    rw [encodeTagsRest] at hc
    rcases List.mem_cons.1 hc with rfl | hc
    · decide
    rcases List.mem_cons.1 hc with rfl | hc
    · decide
    rcases List.mem_append.1 hc with h | h
    · exact quoteStr_ne_nl t c h
    · exact ih c h

theorem encodeTags_ne_nl (ts : List Str) : ∀ c ∈ encodeTags ts, c ≠ '\n' := by
  cases ts with
  | nil =>
    intro c hc
    simp [encodeTags] at hc
  | cons t ts =>
    intro c hc
    rw [encodeTags] at hc
    rcases List.mem_append.1 hc with h | h
    · exact quoteStr_ne_nl t c h
    · exact encodeTagsRest_ne_nl ts c h

theorem getLast?_digitsLine (pre : Str) (i : Nat) :
    (pre ++ natToChars i).getLast? ≠ some '+' := by
  rw [List.getLast?_append_of_ne_nil pre (natToChars_ne_nil i)]
  intro hsome
  rcases h : (natToChars i).getLast? with _ | c
  · rw [h] at hsome
    exact Option.noConfusion hsome
  · rw [h] at hsome
    have hc : c ∈ natToChars i := List.mem_of_mem_getLast? h
    have := natToChars_digits i c hc
    rw [Option.some.injEq] at hsome
    exact isDigit_ne_plus c this hsome

theorem getLast?_strLine (pre s : Str) : (pre ++ quoteStr s).getLast? = some '"' := by
  rw [show pre ++ quoteStr s = (pre ++ '"' :: escapeStr s) ++ ['"'] from by
    rw [quoteStr]
    simp]
  exact List.getLast?_concat _

theorem getLast?_tagsLine (pre : Str) (ts : List Str) :
    (pre ++ (encodeTags ts ++ [']'])).getLast? = some ']' := by
  rw [show pre ++ (encodeTags ts ++ [']']) = (pre ++ encodeTags ts) ++ [']'] from by simp]
  exact List.getLast?_concat _

/-- All lines of the encoded front matter are newline-free and do not end in
`'+'`. -/
theorem tomlLines_good (fm : FrontMatter) :
    ∀ l ∈ tomlLines fm, (∀ c ∈ l, c ≠ '\n') ∧ l.getLast? ≠ some '+' := by
  intro l hl
  have hlitId : ∀ c ∈ "id = ".data, c ≠ '\n' := by decide
  have hlitCa : ∀ c ∈ "created_at = ".data, c ≠ '\n' := by decide
  have hlitDue : ∀ c ∈ "due_at = ".data, c ≠ '\n' := by decide
  have hlitTags : ∀ c ∈ "tags = [".data, c ≠ '\n' := by decide
  have hId : (∀ c ∈ "id = ".data ++ natToChars fm.id, c ≠ '\n') ∧
      ("id = ".data ++ natToChars fm.id).getLast? ≠ some '+' :=
    ⟨append_ne_nl _ _ hlitId (fun c hc => isDigit_ne_nl c (natToChars_digits fm.id c hc)),
      getLast?_digitsLine _ fm.id⟩
  have hCa : (∀ c ∈ "created_at = ".data ++ quoteStr (formatDT fm.created_at), c ≠ '\n') ∧
      ("created_at = ".data ++ quoteStr (formatDT fm.created_at)).getLast? ≠ some '+' :=
    ⟨append_ne_nl _ _ hlitCa (quoteStr_ne_nl _),
      by rw [getLast?_strLine]; decide⟩
  have hTags : (∀ c ∈ "tags = [".data ++ (encodeTags fm.tags ++ [']']), c ≠ '\n') ∧
      ("tags = [".data ++ (encodeTags fm.tags ++ [']'])).getLast? ≠ some '+' := by
    refine ⟨append_ne_nl _ _ hlitTags (append_ne_nl _ _ (encodeTags_ne_nl _) ?_), ?_⟩
    · intro c hc
      rw [List.mem_singleton.1 hc]
      decide
    · rw [getLast?_tagsLine]
      decide
  cases hd : fm.due_at with
  | none =>
    rw [tomlLines, hd] at hl
    rcases List.mem_cons.1 hl with rfl | hl
    · exact hId
    rcases List.mem_cons.1 hl with rfl | hl
    · exact hCa
    rcases List.mem_append.1 hl with h1 | h1
    · exact absurd h1 (List.not_mem_nil l)
    · rw [List.mem_singleton.1 h1]
      exact hTags
  | some td =>
    rw [tomlLines, hd] at hl
    rcases List.mem_cons.1 hl with rfl | hl
    · exact hId
    rcases List.mem_cons.1 hl with rfl | hl
    · exact hCa
    rcases List.mem_append.1 hl with h1 | h1
    · rw [List.mem_singleton.1 h1]
      exact ⟨append_ne_nl _ _ hlitDue (quoteStr_ne_nl _),
        by rw [getLast?_strLine]; decide⟩
    · rw [List.mem_singleton.1 h1]
      exact hTags

theorem nlGuardB_cons_of_ne (c : Char) (hc : (c == '+') = false) (X : Str) :
    nlGuardB (c :: X) = nlGuardB X := by
  cases X with
  | nil => rfl
  | cons d xs =>
    rw [nlGuardB_cons_cons, hc]
    simp

theorem nlGuardB_joinLines (ls : List Str)
    (h : ∀ l ∈ ls, (∀ c ∈ l, c ≠ '\n') ∧ l.getLast? ≠ some '+') (r : Str)
    (hr : nlGuardB r = true) : nlGuardB (joinLines ls ++ r) = true := by
  induction ls with
  | nil => simpa [joinLines]
  | cons l ls ih =>
    rw [joinLines, List.append_assoc, List.cons_append]
    refine nlGuardB_append l _ (nlGuardB_of_noNl l (h l (List.mem_cons_self l ls)).1) ?_ ?_
    · rw [nlGuardB_cons_of_ne '\n' (by decide)]
      exact ih (fun x hx => h x (List.mem_cons_of_mem l hx))
    · left
      exact (h l (List.mem_cons_self l ls)).2

theorem nlGuardB_tomlEncode (fm : FrontMatter) :
    nlGuardB (tomlEncode fm ++ ['\n']) = true := by
  rw [tomlEncode]
  exact nlGuardB_joinLines (tomlLines fm) (tomlLines_good fm) ['\n'] rfl

theorem decodeFM_tomlEncode (fm : FrontMatter) (h : fm.Valid) :
    decodeFM (tomlEncode fm ++ ['\n']) = some fm := by
  rw [decodeFM, tomlEncode,
    splitOnNl_joinLines (tomlLines fm) (fun l hl => (tomlLines_good fm l hl).1) ['\n']]
  rw [show splitOnNl ['\n'] = [[], []] from rfl]
  rw [decodeLines_tomlLines fm h]
  rfl

/-- Round trip of the document codec on representable documents. -/
theorem from_str_to_bytes (d : TodoData) (h : d.Valid) :
    TodoData.from_str (TodoData.to_bytes d) = .ok d := by
  obtain ⟨fm, body⟩ := d
  have hfm : fm.Valid := h
  rw [TodoData.to_bytes]
  rw [show delim ++ (tomlEncode fm ++ '\n' :: (delim ++ body)) =
    delim ++ ((tomlEncode fm ++ ['\n']) ++ (delim ++ body)) from by simp]
  rw [TodoData.from_str]
  rw [splitn3_delim (tomlEncode fm ++ ['\n']) body (nlGuardB_tomlEncode fm)]
  rw [if_neg (by simp)]
  simp only [List.getElem?_cons_succ, List.getElem?_cons_zero]
  rw [decodeFM_tomlEncode fm hfm]

/-! ### Properties of the collection loader -/

theorem load_aux_append (acc : List (Nat × TodoData)) (xs ys : List Str) :
    load_collection_aux acc (xs ++ ys) =
      match load_collection_aux acc xs with
      | .ok acc2 => load_collection_aux acc2 ys
      | e => e := by
  induction xs generalizing acc with
  | nil => rfl
  | cons s rest ih =>
    rw [List.cons_append, load_collection_aux, load_collection_aux]
    cases hfs : TodoData.from_str s with
    | crash => rfl
    | err e => exact ih acc
    | ok d =>
      dsimp only
      by_cases hc : (acc.map Prod.fst).contains d.front_matter.id = true
      · rw [if_pos hc, if_pos hc]
      · rw [if_neg hc, if_neg hc]
        exact ih _

theorem load_aux_no_crash (xs : List Str)
    (h : ∀ s ∈ xs, TodoData.from_str s ≠ .crash) :
    ∀ acc, load_collection_aux acc xs ≠ .crash := by
  induction xs with
  | nil =>
    intro acc h'
    exact LoadOutcome.noConfusion h'
  | cons s rest ih =>
    intro acc
    rw [load_collection_aux]
    cases hfs : TodoData.from_str s with
    | crash => exact absurd hfs (h s (List.mem_cons_self s rest))
    | err e => exact ih (fun x hx => h x (List.mem_cons_of_mem s hx)) acc
    | ok d =>
      dsimp only
      by_cases hc : (acc.map Prod.fst).contains d.front_matter.id = true
      · rw [if_pos hc]
        exact fun h2 => LoadOutcome.noConfusion h2
      · rw [if_neg hc]
        exact ih (fun x hx => h x (List.mem_cons_of_mem s hx)) _

theorem load_aux_prefix (xs : List Str) :
    ∀ acc acc2, load_collection_aux acc xs = .ok acc2 → ∃ ext, acc2 = acc ++ ext := by
  induction xs with
  | nil =>
    intro acc acc2 h
    rw [load_collection_aux] at h
    injection h with h'
    exact ⟨[], by rw [← h', List.append_nil]⟩
  | cons s rest ih =>
    intro acc acc2 h
    rw [load_collection_aux] at h
    cases hfs : TodoData.from_str s with
    | crash => rw [hfs] at h; exact LoadOutcome.noConfusion h
    | err e => rw [hfs] at h; exact ih acc acc2 h
    | ok d =>
      rw [hfs] at h
      dsimp only at h
      by_cases hc : (acc.map Prod.fst).contains d.front_matter.id = true
      · rw [if_pos hc] at h
        exact LoadOutcome.noConfusion h
      · rw [if_neg hc] at h
        obtain ⟨ext, hext⟩ := ih _ acc2 h
        exact ⟨(d.front_matter.id, d) :: ext, by rw [hext, List.append_assoc]; rfl⟩

theorem load_aux_ok_nodup (xs : List Str) :
    ∀ acc c, (acc.map Prod.fst).Nodup → load_collection_aux acc xs = .ok c →
      (c.map Prod.fst).Nodup := by
  induction xs with
  | nil =>
    intro acc c hnd h
    rw [load_collection_aux] at h
    injection h with h'
    rw [← h']
    exact hnd
  | cons s rest ih =>
    intro acc c hnd h
    rw [load_collection_aux] at h
    cases hfs : TodoData.from_str s with
    | crash => rw [hfs] at h; exact LoadOutcome.noConfusion h
    | err e => rw [hfs] at h; exact ih acc c hnd h
    | ok d =>
      rw [hfs] at h
      dsimp only at h
      by_cases hc : (acc.map Prod.fst).contains d.front_matter.id = true
      · rw [if_pos hc] at h
        exact LoadOutcome.noConfusion h
      · rw [if_neg hc] at h
        refine ih _ c ?_ h
        rw [List.map_append]
        refine List.nodup_append.2 ⟨hnd, List.nodup_singleton _, ?_⟩
        intro x hx hx2
        rw [List.map_singleton, List.mem_singleton] at hx2
        subst hx2
        exact hc (List.elem_iff.2 hx)

/-- Within every collection the loader returns, identifiers are unique. -/
theorem load_collection_nodup (contents : List Str) (c : List (Nat × TodoData))
    (h : load_collection contents = .ok c) : (c.map Prod.fst).Nodup :=
  load_aux_ok_nodup contents [] c (by simp) h

/-- If the scan panics on no file and two files parse to the same identifier,
the loader aborts with the duplicate-identifier error. -/
theorem load_collection_conflict (l1 : List Str) (s1 : Str) (l2 : List Str) (s2 : Str)
    (l3 : List Str) (d1 d2 : TodoData)
    (h1 : TodoData.from_str s1 = .ok d1) (h2 : TodoData.from_str s2 = .ok d2)
    (hid : d1.front_matter.id = d2.front_matter.id)
    (hnc : ∀ s ∈ l1 ++ (s1 :: (l2 ++ (s2 :: l3))), TodoData.from_str s ≠ .crash) :
    load_collection (l1 ++ (s1 :: (l2 ++ (s2 :: l3)))) = .conflictError := by
  have hnc1 : ∀ s ∈ l1, TodoData.from_str s ≠ .crash := fun s hs =>
    hnc s (List.mem_append.2 (Or.inl hs))
  have hnc2 : ∀ s ∈ l2, TodoData.from_str s ≠ .crash := fun s hs =>
    hnc s (List.mem_append.2 (Or.inr (List.mem_cons_of_mem s1
      (List.mem_append.2 (Or.inl hs)))))
  rw [load_collection, load_aux_append]
  cases hA : load_collection_aux [] l1 with
  | crash => exact absurd hA (load_aux_no_crash l1 hnc1 [])
  | conflictError => rfl
  | ok a1 =>
    dsimp only
    rw [load_collection_aux, h1]
    dsimp only
    by_cases hc : (a1.map Prod.fst).contains d1.front_matter.id = true
    · rw [if_pos hc]
    · rw [if_neg hc, load_aux_append]
      cases hB : load_collection_aux (a1 ++ [(d1.front_matter.id, d1)]) l2 with
      | crash => exact absurd hB (load_aux_no_crash l2 hnc2 _)
      | conflictError => rfl
      | ok a3 =>
        obtain ⟨ext, rfl⟩ := load_aux_prefix l2 _ a3 hB
        dsimp only
        rw [load_collection_aux, h2]
        dsimp only
        have hmem : (((a1 ++ [(d1.front_matter.id, d1)] ++ ext).map Prod.fst).contains
            d2.front_matter.id) = true := by
          refine List.elem_iff.2 ?_
          rw [List.map_append, List.map_append, List.map_singleton]
          rw [← hid]
          exact List.mem_append.2 (Or.inl (List.mem_append.2 (Or.inr
            (List.mem_singleton.2 rfl))))
        rw [if_pos hmem]

/-! ### Properties of the identifier allocator -/

theorem maxKey?_go (l : List Nat) :
    ∀ m, l.foldl (fun acc k =>
        match acc with
        | none => some k
        | some m2 => some (max m2 k)) (some m) = some (l.foldl max m) := by
  induction l with
  | nil => intro m; rfl
  | cons a t ih =>
    intro m
    rw [List.foldl_cons, List.foldl_cons]
    exact ih (max m a)

theorem maxKey?_eq_max? (l : List Nat) : maxKey? l = l.max? := by
  cases l with
  | nil => rfl
  | cons a t =>
    rw [maxKey?, List.foldl_cons]
    exact maxKey?_go t a

theorem maxKey?_perm (l1 l2 : List Nat) (h : l1.Perm l2) : maxKey? l1 = maxKey? l2 := by
  rw [maxKey?_eq_max?, maxKey?_eq_max?]
  cases h1 : l1.max? with
  | none =>
    have hnil : l1 = [] := by
      cases l1 with
      | nil => rfl
      | cons a t => exact absurd h1 (by rw [List.max?_cons]; exact Option.noConfusion)
    subst hnil
    rw [h.symm.eq_nil]
    rfl
  | some m =>
    obtain ⟨hm, hb⟩ := List.max?_eq_some_iff'.mp h1
    symm
    exact List.max?_eq_some_iff'.mpr ⟨h.mem_iff.1 hm, fun x hx => hb x (h.mem_iff.2 hx)⟩

theorem maxKey?_spec (l : List Nat) (m : Nat) (h : maxKey? l = some m) :
    m ∈ l ∧ ∀ x ∈ l, x ≤ m := by
  rw [maxKey?_eq_max?] at h
  exact List.max?_eq_some_iff'.mp h

theorem maxKey?_of_mem_max (l : List Nat) (m : Nat) (hm : m ∈ l)
    (hb : ∀ x ∈ l, x ≤ m) : maxKey? l = some m := by
  rw [maxKey?_eq_max?]
  exact List.max?_eq_some_iff'.mpr ⟨hm, hb⟩

/-! ### Which front-matter lines can set the required fields -/

theorem setCreated_idF (b : FMBuilder) (v : TomlVal) (b2 : FMBuilder)
    (h : setCreated b v = some b2) : b2.idF = b.idF := by
  cases v with
  | intVal n => simp [setCreated] at h
  | arrVal a => simp [setCreated] at h
  | strVal s =>
    rw [setCreated] at h
    by_cases hb : b.createdF = none
    · rw [if_pos hb] at h
      cases hdt : parseDT s with
      | none => rw [hdt] at h; exact Option.noConfusion h
      | some t =>
        rw [hdt] at h
        injection h with h2
        rw [← h2]
    · rw [if_neg hb] at h
      exact Option.noConfusion h

theorem setDue_idF (b : FMBuilder) (v : TomlVal) (b2 : FMBuilder)
    (h : setDue b v = some b2) : b2.idF = b.idF := by
  cases v with
  | intVal n => simp [setDue] at h
  | arrVal a => simp [setDue] at h
  | strVal s =>
    rw [setDue] at h
    by_cases hb : b.dueF = none
    · rw [if_pos hb] at h
      cases hdt : parseDT s with
      | none => rw [hdt] at h; exact Option.noConfusion h
      | some t =>
        rw [hdt] at h
        injection h with h2
        rw [← h2]
    · rw [if_neg hb] at h
      exact Option.noConfusion h

theorem setTags_idF (b : FMBuilder) (v : TomlVal) (b2 : FMBuilder)
    (h : setTags b v = some b2) : b2.idF = b.idF := by
  cases v with
  | intVal n => simp [setTags] at h
  | strVal s => simp [setTags] at h
  | arrVal a =>
    rw [setTags] at h
    by_cases hb : b.tagsF = none
    · rw [if_pos hb] at h
      injection h with h2
      rw [← h2]
    · rw [if_neg hb] at h
      exact Option.noConfusion h

theorem setId_createdF (b : FMBuilder) (v : TomlVal) (b2 : FMBuilder)
    (h : setId b v = some b2) : b2.createdF = b.createdF := by
  cases v with
  | strVal s => simp [setId] at h
  | arrVal a => simp [setId] at h
  | intVal n =>
    rw [setId] at h
    by_cases hb : b.idF = none
    · rw [if_pos hb] at h
      by_cases hn : n < 4294967296
      · rw [if_pos hn] at h
        injection h with h2
        rw [← h2]
      · rw [if_neg hn] at h
        exact Option.noConfusion h
    · rw [if_neg hb] at h
      exact Option.noConfusion h

theorem setDue_createdF (b : FMBuilder) (v : TomlVal) (b2 : FMBuilder)
    (h : setDue b v = some b2) : b2.createdF = b.createdF := by
  cases v with
  | intVal n => simp [setDue] at h
  | arrVal a => simp [setDue] at h
  | strVal s =>
    rw [setDue] at h
    by_cases hb : b.dueF = none
    · rw [if_pos hb] at h
      cases hdt : parseDT s with
      | none => rw [hdt] at h; exact Option.noConfusion h
      | some t =>
        rw [hdt] at h
        injection h with h2
        rw [← h2]
    · rw [if_neg hb] at h
      exact Option.noConfusion h

theorem setTags_createdF (b : FMBuilder) (v : TomlVal) (b2 : FMBuilder)
    (h : setTags b v = some b2) : b2.createdF = b.createdF := by
  cases v with
  | intVal n => simp [setTags] at h
  | strVal s => simp [setTags] at h
  | arrVal a =>
    rw [setTags] at h
    by_cases hb : b.tagsF = none
    · rw [if_pos hb] at h
      injection h with h2
      rw [← h2]
    · rw [if_neg hb] at h
      exact Option.noConfusion h

theorem applyLine_idF (b : FMBuilder) (k : Str) (v : TomlVal) (b2 : FMBuilder)
    (hk : k ≠ "id".data) (h : applyLine b k v = some b2) : b2.idF = b.idF := by
  rw [applyLine, if_neg hk] at h
  by_cases h2 : k = "created_at".data
  · rw [if_pos h2] at h
    exact setCreated_idF b v b2 h
  · rw [if_neg h2] at h
    by_cases h3 : k = "due_at".data
    · rw [if_pos h3] at h
      exact setDue_idF b v b2 h
    · rw [if_neg h3] at h
      by_cases h4 : k = "tags".data
      · rw [if_pos h4] at h
        exact setTags_idF b v b2 h
      · rw [if_neg h4] at h
        injection h with h5
        rw [← h5]

theorem applyLine_createdF (b : FMBuilder) (k : Str) (v : TomlVal) (b2 : FMBuilder)
    (hk : k ≠ "created_at".data) (h : applyLine b k v = some b2) :
    b2.createdF = b.createdF := by
  rw [applyLine] at h
  by_cases h1 : k = "id".data
  · rw [if_pos h1] at h
    exact setId_createdF b v b2 h
  · rw [if_neg h1, if_neg hk] at h
    by_cases h3 : k = "due_at".data
    · rw [if_pos h3] at h
      exact setDue_createdF b v b2 h
    · rw [if_neg h3] at h
      by_cases h4 : k = "tags".data
      · rw [if_pos h4] at h
        exact setTags_createdF b v b2 h
      · rw [if_neg h4] at h
        injection h with h5
        rw [← h5]

theorem decodeLines_id_source (ls : List Str) :
    ∀ b b2, decodeLines b ls = some b2 → b2.idF ≠ b.idF →
      ∃ l ∈ ls, ∃ v, parseLine l = some (some ("id".data, v)) := by
  induction ls with
  | nil =>
    intro b b2 h hne
    rw [decodeLines] at h
    injection h with h2
    exact absurd (by rw [h2]) hne
  | cons l ls ih =>
    intro b b2 h hne
    rw [decodeLines] at h
    cases hp : parseLine l with
    | none => rw [hp] at h; exact Option.noConfusion h
    | some o =>
      rw [hp] at h
      cases o with
      | none =>
        obtain ⟨l2, hl2, v, hv⟩ := ih b b2 h hne
        exact ⟨l2, List.mem_cons_of_mem l hl2, v, hv⟩
      | some kv =>
        obtain ⟨k, v⟩ := kv
        dsimp only at h
        cases ha : applyLine b k v with
        | none => rw [ha] at h; exact Option.noConfusion h
        | some b3 =>
          rw [ha] at h
          dsimp only at h
          by_cases hk : k = "id".data
          · subst hk
            exact ⟨l, List.mem_cons_self l ls, v, hp⟩
          · have hpres : b3.idF = b.idF := applyLine_idF b k v b3 hk ha
            obtain ⟨l2, hl2, v2, hv2⟩ := ih b3 b2 h (by rw [hpres]; exact hne)
            exact ⟨l2, List.mem_cons_of_mem l hl2, v2, hv2⟩

theorem decodeLines_created_source (ls : List Str) :
    ∀ b b2, decodeLines b ls = some b2 → b2.createdF ≠ b.createdF →
      ∃ l ∈ ls, ∃ v, parseLine l = some (some ("created_at".data, v)) := by
  induction ls with
  | nil =>
    intro b b2 h hne
    rw [decodeLines] at h
    injection h with h2
    exact absurd (by rw [h2]) hne
  | cons l ls ih =>
    intro b b2 h hne
    rw [decodeLines] at h
    cases hp : parseLine l with
    | none => rw [hp] at h; exact Option.noConfusion h
    | some o =>
      rw [hp] at h
      cases o with
      | none =>
        obtain ⟨l2, hl2, v, hv⟩ := ih b b2 h hne
        exact ⟨l2, List.mem_cons_of_mem l hl2, v, hv⟩
      | some kv =>
        obtain ⟨k, v⟩ := kv
        dsimp only at h
        cases ha : applyLine b k v with
        | none => rw [ha] at h; exact Option.noConfusion h
        | some b3 =>
          rw [ha] at h
          dsimp only at h
          by_cases hk : k = "created_at".data
          · subst hk
            exact ⟨l, List.mem_cons_self l ls, v, hp⟩
          · have hpres : b3.createdF = b.createdF := applyLine_createdF b k v b3 hk ha
            obtain ⟨l2, hl2, v2, hv2⟩ := ih b3 b2 h (by rw [hpres]; exact hne)
            exact ⟨l2, List.mem_cons_of_mem l hl2, v2, hv2⟩

theorem finishFM_fields (b : FMBuilder) (fm : FrontMatter) (h : finishFM b = some fm) :
    b.idF = some fm.id ∧ b.createdF = some fm.created_at := by
  rw [finishFM] at h
  rcases hi : b.idF with _ | i <;> rw [hi] at h
  · exact Option.noConfusion h
  rcases hc : b.createdF with _ | c <;> rw [hc] at h
  · exact Option.noConfusion h
  rcases ht : b.tagsF with _ | ts <;> rw [ht] at h
  · exact Option.noConfusion h
  injection h with h2
  rw [← h2]
  exact ⟨rfl, rfl⟩

/-- Whenever the front-matter decoder succeeds, the block contains a line
assigning `id` and a line assigning `created_at`: a block missing either
required field is rejected. -/
theorem decodeFM_requires_fields (seg : Str) (fm : FrontMatter)
    (h : decodeFM seg = some fm) :
    (∃ l ∈ splitOnNl seg, ∃ v, parseLine l = some (some ("id".data, v))) ∧
    (∃ l ∈ splitOnNl seg, ∃ v, parseLine l = some (some ("created_at".data, v))) := by
  rw [decodeFM] at h
  cases hd : decodeLines emptyFMB (splitOnNl seg) with
  | none => rw [hd] at h; exact Option.noConfusion h
  | some b =>
    rw [hd] at h
    obtain ⟨hi, hc⟩ := finishFM_fields b fm h
    constructor
    · exact decodeLines_id_source (splitOnNl seg) emptyFMB b hd
        (by rw [hi]; exact fun h2 => Option.noConfusion h2)
    · exact decodeLines_created_source (splitOnNl seg) emptyFMB b hd
        (by rw [hc]; exact fun h2 => Option.noConfusion h2)

/-! ### Sample documents used by concrete claims -/

/-- A well-formed record text. -/
def sampleDoc : Str :=
  "+++\nid = 1\ncreated_at = \"2024-01-01T00:00:00Z\"\ntags = []\n\n+++\nhello\n".data

/-- The document `sampleDoc` parses to. -/
def sampleData : TodoData :=
  ⟨⟨1, ⟨2024, 1, 1, 0, 0, 0, 0⟩, none, []⟩, "hello\n".data⟩

/-- A record text declaring `id = 5`. -/
def dupDocA : Str :=
  "+++\nid = 5\ncreated_at = \"2024-01-01T00:00:00Z\"\ntags = []\n+++\nA".data

/-- Another record text declaring `id = 5`. -/
def dupDocB : Str :=
  "+++\nid = 5\ncreated_at = \"2024-02-02T00:00:00Z\"\ntags = []\n+++\nB".data

/-- The document `dupDocA` parses to. -/
def dupDataA : TodoData :=
  ⟨⟨5, ⟨2024, 1, 1, 0, 0, 0, 0⟩, none, []⟩, ['A']⟩

/-- The document `dupDocB` parses to. -/
def dupDataB : TodoData :=
  ⟨⟨5, ⟨2024, 2, 2, 0, 0, 0, 0⟩, none, []⟩, ['B']⟩

/-- A record text whose front matter has an extra, unknown field. -/
def unknownFieldDoc : Str :=
  "+++\nid = 1\ncreated_at = \"2024-01-01T00:00:00Z\"\ntags = []\nunknown_field = 7\n+++\nbody".data

/-- The document `unknownFieldDoc` parses to. -/
def unknownFieldData : TodoData :=
  ⟨⟨1, ⟨2024, 1, 1, 0, 0, 0, 0⟩, none, []⟩, "body".data⟩

/-- Rendered template text with valid front matter but no second delimiter. -/
def renderedNoSecondDelim : Str :=
  "+++\nid = 1\ncreated_at = \"2024-01-01T00:00:00Z\"\ntags = []\n".data

/-- A document whose body contains the delimiter marker. -/
def delimBodyData : TodoData :=
  ⟨⟨3, ⟨2025, 6, 30, 8, 15, 0, 0⟩, none, [['w']]⟩, "see\n+++\nmore".data⟩

/-! ### The claims -/

/-- Claim C1: for every valid Document (front matter with id, created_at,
optional due_at, tags, plus an arbitrary body string), parsing the serialized
form yields an equal Document: `from_str (to_bytes d) = ok d`, with the same
front-matter field values and the same body bytes. -/
theorem c1_document_roundtrip (d : TodoData) (h : d.Valid) :
    TodoData.from_str (TodoData.to_bytes d) = .ok d :=
  from_str_to_bytes d h

/-- Claim C1 witness: the round trip evaluated at a concrete document. -/
theorem c1_document_roundtrip_witness :
    TodoData.Valid ⟨⟨7, ⟨2024, 5, 17, 12, 30, 45, 0⟩, some ⟨2025, 2, 28, 23, 59, 59, 0⟩,
      [['h', 'i']]⟩, "ok\n".data⟩ ∧
    TodoData.from_str (TodoData.to_bytes ⟨⟨7, ⟨2024, 5, 17, 12, 30, 45, 0⟩,
      some ⟨2025, 2, 28, 23, 59, 59, 0⟩, [['h', 'i']]⟩, "ok\n".data⟩) =
      .ok ⟨⟨7, ⟨2024, 5, 17, 12, 30, 45, 0⟩, some ⟨2025, 2, 28, 23, 59, 59, 0⟩,
        [['h', 'i']]⟩, "ok\n".data⟩ :=
  ⟨by decide, c1_document_roundtrip _ (by decide)⟩

/-- Claim C2 (code bug): on input with zero delimiter occurrences `from_str`
panics (`parts.get(1).unwrap()` on `None`) instead of returning a
FormatError; with one delimiter it panics when the tail decodes as front
matter and otherwise returns the TOML decode error.  Only the SchemaError
half of the claim holds: two delimiters with an undecodable front-matter
block return the TOML error. -/
theorem c2_malformed_input_behaviour :
    TodoData.from_str [] = .crash ∧
    TodoData.from_str renderedNoSecondDelim = .crash ∧
    TodoData.from_str "+++\ngarbage\n".data = .err .schemaError ∧
    TodoData.from_str "+++\ngarbage\n+++\nbody".data = .err .schemaError :=
  ⟨by decide, by decide, by decide, by decide⟩

/-- Claim C3 (code bug): a directory with one well-formed record and one file
whose content has no delimiters does not load successfully with the garbage
skipped; the parse of the garbage file panics and the panic aborts the whole
scan. -/
theorem c3_load_panics_on_undelimited_garbage :
    TodoData.from_str sampleDoc = .ok sampleData ∧
    load_collection [sampleDoc, "garbage".data] = .crash :=
  ⟨by decide, by decide⟩

/-- Claim C4: when two files of the scan parse successfully to the same
identifier (and no file panics the scan first), the load aborts with
ConflictError and returns no collection; and every collection the load does
return has pairwise-distinct identifiers. -/
theorem c4_duplicate_id_conflict :
    (∀ (l1 : List Str) (s1 : Str) (l2 : List Str) (s2 : Str) (l3 : List Str)
        (d1 d2 : TodoData),
        TodoData.from_str s1 = .ok d1 → TodoData.from_str s2 = .ok d2 →
        d1.front_matter.id = d2.front_matter.id →
        (∀ s ∈ l1 ++ (s1 :: (l2 ++ (s2 :: l3))), TodoData.from_str s ≠ .crash) →
        load_collection (l1 ++ (s1 :: (l2 ++ (s2 :: l3)))) = .conflictError) ∧
    (∀ contents c, load_collection contents = .ok c → (c.map Prod.fst).Nodup) :=
  ⟨fun l1 s1 l2 s2 l3 d1 d2 h1 h2 hid hnc =>
    load_collection_conflict l1 s1 l2 s2 l3 d1 d2 h1 h2 hid hnc,
   fun contents c h => load_collection_nodup contents c h⟩

/-- Claim C4 witness: two files declaring `id = 5` make the load abort with
the duplicate-identifier error. -/
theorem c4_duplicate_id_conflict_witness :
    load_collection [dupDocA, dupDocB] = .conflictError := by
  have := c4_duplicate_id_conflict.1 [] dupDocA [] dupDocB [] dupDataA dupDataB
    (by decide) (by decide) (by decide) (by decide)
  simpa using this

/-- Claim C5 counterexample: on the collection whose only key is the largest
u32 value, next_data_id does not return one plus the maximum (it wraps). -/
theorem c5_next_id_counterexample :
    next_data_id [4294967295] ≠ 4294967295 + 1 ∧ next_data_id [4294967295] = 0 :=
  ⟨by decide, by decide⟩

/-- Claim C5 (amended): next_data_id returns 1 on an empty collection and one
plus the maximum identifier present whenever that sum fits in a u32 (on keys
whose maximum is 4294967295 it wraps to 0 instead); the result depends only
on the multiset of keys, not on map iteration order. -/
theorem c5_next_id_amended :
    next_data_id [] = 1 ∧
    (∀ keys m, maxKey? keys = some m → m + 1 < 4294967296 →
      next_data_id keys = m + 1) ∧
    (∀ keys1 keys2, keys1.Perm keys2 → next_data_id keys1 = next_data_id keys2) := by
  refine ⟨rfl, ?_, ?_⟩
  · intro keys m hm hlt
    rw [next_data_id, hm]
    exact Nat.mod_eq_of_lt hlt
  · intro k1 k2 hp
    rw [next_data_id, next_data_id, maxKey?_perm k1 k2 hp]

/-- Claim C5 witness: on keys 3, 7, 2 the allocator returns 8. -/
theorem c5_next_id_amended_witness :
    maxKey? [3, 7, 2] = some 7 ∧ next_data_id [3, 7, 2] = 8 :=
  ⟨by decide, c5_next_id_amended.2.1 [3, 7, 2] 7 (by decide) (by decide)⟩

/-- Claim C6: only the first two delimiter occurrences act as segment
boundaries — for any body, also one containing further delimiter markers, the
third split part is the remainder verbatim — and a valid document whose body
contains the delimiter marker round-trips without truncation or corruption of
the body. -/
theorem c6_delimiter_tolerance :
    (∀ a b, nlGuardB a = true →
      splitn 3 delim (delim ++ (a ++ (delim ++ b))) = [[], a, b]) ∧
    (∀ d : TodoData, d.Valid → (∃ x y, d.content = x ++ (delim ++ y)) →
      TodoData.from_str (TodoData.to_bytes d) = .ok d) :=
  ⟨fun a b h => splitn3_delim a b h, fun d h _ => from_str_to_bytes d h⟩

/-- Claim C6 witness: a document whose body contains `+++\n` round-trips, and
the splitter keeps a delimiter inside the third segment literal. -/
theorem c6_delimiter_tolerance_witness :
    TodoData.from_str (TodoData.to_bytes delimBodyData) = .ok delimBodyData ∧
    splitn 3 delim (delim ++ (['a'] ++ (delim ++ ("x\n".data ++ (delim ++ ['y']))))) =
      [[], ['a'], "x\n".data ++ (delim ++ ['y'])] :=
  ⟨c6_delimiter_tolerance.2 delimBodyData (by decide)
      ⟨"see\n".data, ['m', 'o', 'r', 'e'], by decide⟩,
    c6_delimiter_tolerance.1 ['a'] ("x\n".data ++ (delim ++ ['y'])) (by decide)⟩

/-- Claim C7: the derived record path is the ten-digit zero-padded identifier
followed by `.todo.md`, under the `tasks` subdirectory of the process current
directory (the data root `gen_filepath` consults); for a fixed root the
mapping is injective, and it is stable (a pure function of the identifier). -/
theorem c7_gen_filepath_spec (cwd : Str) (i : Nat) (h : i < 4294967296) :
    (∃ ds, ds.length = 10 ∧ (∀ c ∈ ds, c.isDigit = true) ∧ digitsVal ds = i ∧
      gen_filepath cwd i = cwd ++ "/tasks/".data ++ (ds ++ ".todo.md".data)) ∧
    (∀ j, gen_filepath cwd j = gen_filepath cwd i → j = i) := by
  constructor
  · refine ⟨padZeros 10 (natToChars i), ?_, ?_, ?_, rfl⟩
    · refine padZeros_length 10 _ (natToChars_length_le i 10 ?_ (by omega))
      have : (4294967296 : Nat) ≤ 10 ^ 10 := by norm_num
      omega
    · exact padZeros_digits 10 _ (natToChars_digits i)
    · rw [digitsVal_padZeros, digitsVal_natToChars]
  · intro j hj
    rw [gen_filepath, gen_filepath] at hj
    have h1 := List.append_cancel_left hj
    have h2 := List.append_cancel_right h1
    have h3 := congrArg digitsVal h2
    rwa [digitsVal_padZeros, digitsVal_natToChars, digitsVal_padZeros,
      digitsVal_natToChars] at h3

/-- Claim C7 witness: the path derivation evaluated at identifier 42, and a
distinct identifier yielding a distinct path. -/
theorem c7_gen_filepath_spec_witness :
    (∃ ds, ds.length = 10 ∧ (∀ c ∈ ds, c.isDigit = true) ∧ digitsVal ds = 42 ∧
      gen_filepath "/data".data 42 = "/data".data ++ "/tasks/".data ++
        (ds ++ ".todo.md".data)) ∧
    gen_filepath "/data".data 17 ≠ gen_filepath "/data".data 42 := by
  refine ⟨(c7_gen_filepath_spec "/data".data 42 (by decide)).1, fun heq => ?_⟩
  have := (c7_gen_filepath_spec "/data".data 42 (by decide)).2 17 heq
  exact absurd this (by decide)

/-- Claim C8 (code bug): a template whose rendered text lacks the second
delimiter but carries decodable front matter makes `create` panic (the
`unwrap` inside `from_str`), so no wrapping error naming the template is
produced; the wrapping only happens when `from_str` returns an error, and
then it carries the TOML error, not a FormatError. -/
theorem c8_create_panics_on_missing_second_delimiter :
    create_todo_data_from_template "task".data (some renderedNoSecondDelim) = .crash ∧
    create_todo_data_from_template "task".data (some "+++\nnot front matter".data) =
      .invalidTemplate "task".data .schemaError :=
  ⟨by decide, by decide⟩

/-- Claim C9 counterexample: a front-matter block containing an unknown field
parses successfully — it is not a parse error as the claim states. -/
theorem c9_unknown_field_counterexample :
    TodoData.from_str unknownFieldDoc = .ok unknownFieldData ∧
    TodoData.from_str unknownFieldDoc ≠ .err .schemaError ∧
    TodoData.from_str unknownFieldDoc ≠ .err .formatError :=
  ⟨by decide, by decide, by decide⟩

/-- Claim C9 (amended): with two delimiter occurrences, the front-matter
segment must assign the required fields — whenever the decoder succeeds the
block contains an `id` line and a `created_at` line, so missing either is a
parse error — but unknown fields are ignored rather than rejected. -/
theorem c9_required_fields_amended :
    (∀ seg fm, decodeFM seg = some fm →
      (∃ l ∈ splitOnNl seg, ∃ v, parseLine l = some (some ("id".data, v))) ∧
      (∃ l ∈ splitOnNl seg, ∃ v, parseLine l = some (some ("created_at".data, v)))) ∧
    TodoData.from_str unknownFieldDoc = .ok unknownFieldData :=
  ⟨fun seg fm h => decodeFM_requires_fields seg fm h, by decide⟩

/-- Claim C9 witness: the required-field property evaluated on a concrete
front-matter segment. -/
theorem c9_required_fields_amended_witness :
    ∃ l ∈ splitOnNl "id = 1\ncreated_at = \"2024-01-01T00:00:00Z\"\ntags = []\n".data,
      ∃ v, parseLine l = some (some ("id".data, v)) :=
  (c9_required_fields_amended.1 _ ⟨1, ⟨2024, 1, 1, 0, 0, 0, 0⟩, none, []⟩ (by decide)).1

/-- Claim C10: identifiers are u32 values; on a collection containing the
largest one, 4294967295, `next_data_id` computes max + 1 in 32-bit
arithmetic, wrapping to 0 modulo 2^32, and thus does not return an
identifier greater than every existing one. -/
theorem c10_next_id_overflow (keys : List Nat)
    (hall : ∀ k ∈ keys, k < 4294967296) (hmem : 4294967295 ∈ keys) :
    next_data_id keys = 0 ∧ ∃ k ∈ keys, ¬ k < next_data_id keys := by
  have hmax : maxKey? keys = some 4294967295 :=
    maxKey?_of_mem_max keys 4294967295 hmem (fun x hx => by have := hall x hx; omega)
  constructor
  · rw [next_data_id, hmax]
  · refine ⟨4294967295, hmem, ?_⟩
    rw [next_data_id, hmax]
    decide

/-- Claim C10 witness: the overflow evaluated on the singleton collection
holding the largest u32 identifier. -/
theorem c10_next_id_overflow_witness :
    next_data_id [4294967295] = 0 ∧
    ∃ k ∈ [4294967295], ¬ k < next_data_id [4294967295] :=
  c10_next_id_overflow [4294967295] (by decide) (by decide)

end Todo
